import Mathlib

/-!
Verification of the docloom-cli tabular-analysis engine
(internal/analysis: table.go = src/unnamed/part_022, xlsx.go).

Shallow embedding conventions:
* Go float64 values are modelled as exact fractions (the structure Frac
  below, an Int numerator with a Nat denominator, kept normalized).  Go
  NaN/Inf never reach report fields on the live paths: every division in
  the source is guarded by a zero test, and the one unguarded spot
  (math.Sqrt of a negative product) is modelled by sqrtFrac returning 0,
  which makes the subsequent Go comparisons take the same branches as the
  NaN propagation does in the source.
* Go strings are Lean String values; all operations work on the
  underlying character list so that the kernel can evaluate them.
  Go len(s) on a string counts bytes; byteLen models this via UTF-8 size.
* Go map iteration order is undefined.  Every loop of the form
  "for k, v := range m" is modelled by applying an arbitrary
  permutation-valid function (structure MapOrder) to the association
  list holding the map contents.  Map reads and writes are deterministic
  association-list operations.
* go sort.Slice(l, less) is modelled as List.insertionSort with the
  reflexive closure of less; under a total strict-weak less this yields
  a sorted permutation, which is the contract Go guarantees.
* File IO and the csv/zip/xml decoding layers are out of the model: the
  analyzers take the decoded record stream as input.  strconv.ParseFloat
  and time.Parse are modelled at the grammar level (decimal/scientific
  floats; the fixed date layout list), excluding Inf/NaN/hex-float
  spellings, which no claim touches.
-/

namespace Docloom

/-! ### Exact fractions standing in for float64 -/

structure Frac where
  num : Int
  den : Nat
deriving DecidableEq, Repr

/-- Normalized fraction: mkFrac moves the sign to the numerator and divides
by the gcd.  A zero denominator input (which on the live Go paths never
happens, every division being guarded) collapses to 0. -/
def mkFrac (n d : Int) : Frac :=
  if d = 0 then ⟨0, 1⟩
  else
    let n1 := if d < 0 then -n else n
    let dn : Nat := d.natAbs
    let g := Nat.gcd n1.natAbs dn
    ⟨n1 / (g : Int), dn / g⟩

def Frac.ofInt (n : Int) : Frac := ⟨n, 1⟩

def Frac.add (a b : Frac) : Frac :=
  mkFrac (a.num * b.den + b.num * a.den) ((a.den : Int) * b.den)

def Frac.sub (a b : Frac) : Frac :=
  mkFrac (a.num * b.den - b.num * a.den) ((a.den : Int) * b.den)

def Frac.mul (a b : Frac) : Frac :=
  mkFrac (a.num * b.num) ((a.den : Int) * b.den)

def Frac.div (a b : Frac) : Frac :=
  mkFrac (a.num * b.den) ((a.den : Int) * b.num)

def Frac.neg (a : Frac) : Frac := ⟨-a.num, a.den⟩

instance : Add Frac := ⟨Frac.add⟩
instance : Sub Frac := ⟨Frac.sub⟩
instance : Mul Frac := ⟨Frac.mul⟩
instance : Div Frac := ⟨Frac.div⟩
instance : Neg Frac := ⟨Frac.neg⟩
instance : OfNat Frac 0 := ⟨⟨0, 1⟩⟩
instance : OfNat Frac 1 := ⟨⟨1, 1⟩⟩

/-- Value order, by cross multiplication (denominators are nonnegative by
construction, and positive for every fraction the model builds). -/
instance : LT Frac := ⟨fun a b => a.num * (b.den : Int) < b.num * (a.den : Int)⟩

instance : LE Frac := ⟨fun a b => a.num * (b.den : Int) ≤ b.num * (a.den : Int)⟩

instance (a b : Frac) : Decidable (a < b) :=
  inferInstanceAs (Decidable (a.num * (b.den : Int) < b.num * (a.den : Int)))

instance (a b : Frac) : Decidable (a ≤ b) :=
  inferInstanceAs (Decidable (a.num * (b.den : Int) ≤ b.num * (a.den : Int)))

/-- Value equality (coincides with structural equality on normalized
fractions with positive denominators). -/
def Frac.veq (a b : Frac) : Prop := a.num * (b.den : Int) = b.num * (a.den : Int)

instance (a b : Frac) : Decidable (a.veq b) :=
  inferInstanceAs (Decidable (a.num * (b.den : Int) = b.num * (a.den : Int)))

/-- Absolute value, mirroring math.Abs. -/
def Frac.fabs (a : Frac) : Frac := ⟨a.num.natAbs, a.den⟩

/-- Interpretation into the rationals; used in theorem statements only. -/
def Frac.toRat (a : Frac) : ℚ := (a.num : ℚ) / (a.den : ℚ)

/-- Fuel-driven bit length (the fuel argument makes the recursion
structural; fuel n+1 always suffices since the argument is halved). -/
def bitLenAux : Nat → Nat → Nat
  | 0, _ => 0
  | f + 1, n => if n = 0 then 0 else 1 + bitLenAux f (n / 2)

def bitLen (n : Nat) : Nat := bitLenAux (n + 1) n

/-- Binary-search integer square root (largest k with k*k ≤ n),
kernel-computable. -/
def isqrtAux (n : Nat) : Nat → Nat → Nat
  | 0, acc => acc
  | i + 1, acc =>
    let c := acc + 2 ^ i
    if c * c ≤ n then isqrtAux n i c else isqrtAux n i acc

def isqrt (n : Nat) : Nat := isqrtAux n (bitLen n / 2 + 1) 0

/-- Model of Go math.Sqrt on the float values that reach it.  Exact on
perfect squares (the only values whose digits the claims inspect), a
53-bit dyadic approximation otherwise, and 0 on negative input: the
source always follows math.Sqrt with a comparison against 0 or a NaN
check, and a NaN float64 takes exactly the branches a 0 takes there. -/
def sqrtFrac (q : Frac) : Frac :=
  if q.num ≤ 0 then ⟨0, 1⟩
  else mkFrac (isqrt (q.num.toNat * q.den * 2 ^ 106)) ((q.den : Int) * 2 ^ 53)

/-! ### Character-list string helpers (Go strings package) -/

/-- Whitespace per unicode.IsSpace, restricted to the code points the
data paths can meet (Latin-1 range plus ASCII controls). -/
def isGoSpace (c : Char) : Bool :=
  c == ' ' || c == '\t' || c == '\n' || c == '\r' ||
  c.toNat == 11 || c.toNat == 12 || c.toNat == 0x85 || c.toNat == 0xA0

def trimChars (l : List Char) : List Char :=
  ((l.dropWhile isGoSpace).reverse.dropWhile isGoSpace).reverse

/-- strings.TrimSpace. -/
def goTrim (s : String) : String := String.mk (trimChars s.data)

/-- strings.Contains for a single-character substring. -/
def containsChar (s : String) (c : Char) : Bool := s.data.contains c

/-- strings.ReplaceAll with a single-character pattern and empty
replacement. -/
def removeChar (l : List Char) (c : Char) : List Char :=
  l.filter (fun x => !(x == c))

/-- strings.ReplaceAll with single-character pattern and replacement. -/
def swapChar (l : List Char) (c d : Char) : List Char :=
  l.map (fun x => if x == c then d else x)

def lastIdxAux (c : Char) : List Char → Nat → Int → Int
  | [], _, best => best
  | x :: rest, i, best => lastIdxAux c rest (i + 1) (if x == c then (i : Int) else best)

/-- strings.LastIndex for a single-character needle (-1 when absent).
Byte positions are replaced by character positions; only presence and
relative order are ever used, which both index notions agree on. -/
def lastIdx (l : List Char) (c : Char) : Int := lastIdxAux c l 0 (-1)

/-- ASCII lowering per character (the header names the group-by logic
lowers are ASCII; Go uses full Unicode tables). -/
def lowerChar (c : Char) : Char :=
  if 'A' ≤ c && c ≤ 'Z' then Char.ofNat (c.toNat + 32) else c

def goLower (s : String) : String := String.mk (s.data.map lowerChar)

/-- UTF-8 encoded size of one character (Go len of its encoding). -/
def charBytes (c : Char) : Nat :=
  if c.toNat < 0x80 then 1
  else if c.toNat < 0x800 then 2
  else if c.toNat < 0x10000 then 3
  else 4

/-- Go len(s): the byte length of the UTF-8 encoding. -/
def byteLen (s : String) : Nat := (s.data.map charBytes).sum

/-- Lexicographic (byte-order equals code-point-order) comparison of
character lists; models Go string less-than. -/
def listLt : List Char → List Char → Bool
  | _, [] => false
  | [], _ :: _ => true
  | a :: as, b :: bs => if a < b then true else if b < a then false else listLt as bs

def strLt (a b : String) : Bool := listLt a.data b.data

def joinSep (sep : String) : List String → String
  | [] => ""
  | [x] => x
  | x :: rest => x ++ sep ++ joinSep sep rest

/-! ### strconv.ParseFloat model (decimal and scientific forms) -/

def isDigit (c : Char) : Bool := '0' ≤ c && c ≤ '9'

def digitsToNat (l : List Char) : Nat :=
  l.foldl (fun a c => a * 10 + (c.toNat - 48)) 0

def tenPowInt (e : Int) : Frac :=
  if 0 ≤ e then ⟨(10 : Int) ^ e.toNat, 1⟩ else ⟨1, 10 ^ (-e).toNat⟩

def parseSign : List Char → Int × List Char
  | '+' :: r => (1, r)
  | '-' :: r => (-1, r)
  | l => (1, l)

/-- Model of strconv.ParseFloat(s, 64) at the value grammar level:
optional sign, decimal mantissa with optional dot, optional decimal
exponent; the whole input must be consumed.  Inf/NaN spellings and
hex-float forms are outside the model (none of the claims involve them),
and the result is kept exact instead of being rounded to 53 bits. -/
def goParseFloat (s : String) : Option Frac :=
  let (sg, r1) := parseSign s.data
  let intD := r1.takeWhile isDigit
  let r2 := r1.dropWhile isDigit
  let (fracD, r3) :=
    match r2 with
    | '.' :: r => (r.takeWhile isDigit, r.dropWhile isDigit)
    | _ => ([], r2)
  if intD.isEmpty && fracD.isEmpty then none
  else
    let mant : Frac := mkFrac (sg * (digitsToNat (intD ++ fracD) : Int)) ((10 : Int) ^ fracD.length)
    match r3 with
    | [] => some mant
    | e :: r4 =>
      if e == 'e' || e == 'E' then
        let (esg, r5) := parseSign r4
        let eD := r5.takeWhile isDigit
        let r6 := r5.dropWhile isDigit
        if eD.isEmpty then none
        else if r6.isEmpty then some (mant.mul (tenPowInt (esg * (digitsToNat eD : Int))))
        else none
      else none

/-! ### Options (table.go lines 18-41) -/

/-- Character value 0, standing for an unset rune option. -/
def runeZero : Char := Char.ofNat 0

structure Options where
  MaxRows : Int := 0
  SampleRows : Int := 0
  Delimiter : Char := runeZero
  GroupBy : List String := []
  Correlations : Bool := false
  CorrPerGroup : Bool := false
  DecimalSeparator : Char := runeZero
  ThousandsSeparator : Char := runeZero
  Outliers : Bool := false
  OutlierThreshold : Frac := ⟨0, 1⟩
  UnitNormalize : Bool := false
  UnitTargets : List (String × String) := []
deriving DecidableEq, Repr

/-! ### parseNumeric (table.go lines 632-681) -/

def nbsp : Char := Char.ofNat 0xA0

/-- parseNumeric from table.go.  The unit argument is unused in the
source body as well. -/
def parseNumeric (s : String) (unit : String) (opt : Options) : Option Frac :=
  let raw0 := trimChars s.data
  let raw1 := if raw0.contains '%' then removeChar raw0 '%' else raw0
  let raw2 := swapChar raw1 nbsp ' '
  let raw3 := trimChars raw2
  let dt : Char × Char :=
    if opt.DecimalSeparator = runeZero then
      let cpos := lastIdx raw3 ','
      let dpos := lastIdx raw3 '.'
      if 0 ≤ cpos ∧ 0 ≤ dpos then
        if dpos < cpos then (',', '.') else ('.', ',')
      else if 0 ≤ cpos then (',', opt.ThousandsSeparator)
      else ('.', opt.ThousandsSeparator)
    else (opt.DecimalSeparator, opt.ThousandsSeparator)
  let dec := dt.1
  let thou := dt.2
  let raw4 :=
    if thou = runeZero then
      [',', '.', ' '].foldl (fun acc sep => if sep = dec then acc else removeChar acc sep) raw3
    else if thou ≠ dec then removeChar raw3 thou
    else raw3
  let raw5 := if dec ≠ '.' then swapChar raw4 dec '.' else raw4
  goParseFloat (String.mk raw5)

/-- Formalization of claim C4 exactly as worded: with no decimal
separator configured, the separator pair is resolved per value (both
present: rightmost is decimal, the other is the thousands separator;
only comma: comma is decimal; otherwise dot), then all occurrences of
the resolved thousands separator -- and nothing else -- are removed, the
decimal separator is rewritten to a dot, and the result is parsed as a
float. -/
def parseNumericClaimC4 (s : String) : Option Frac :=
  let raw0 := trimChars s.data
  let raw1 := if raw0.contains '%' then removeChar raw0 '%' else raw0
  let raw2 := swapChar raw1 nbsp ' '
  let raw3 := trimChars raw2
  let cpos := lastIdx raw3 ','
  let dpos := lastIdx raw3 '.'
  let stripped :=
    if 0 ≤ cpos ∧ 0 ≤ dpos then
      if dpos < cpos then swapChar (removeChar raw3 '.') ',' '.'
      else removeChar raw3 ','
    else if 0 ≤ cpos then swapChar raw3 ',' '.'
    else raw3
  goParseFloat (String.mk stripped)

/-- Amended behavior of parseNumeric in auto-decimal mode: as the claim
says for the both-separators-present case; in the single-separator cases
the decimal separator is comma when only commas appear and dot
otherwise, and then (a) with no configured thousands separator every
occurrence of the common separators comma, dot and space other than the
decimal separator is removed, while (b) a configured thousands separator
different from the decimal one is removed and a configured thousands
separator equal to the decimal one removes nothing. -/
def parseNumericAutoSpec (s : String) (thouOpt : Char) : Option Frac :=
  let raw0 := trimChars s.data
  let raw1 := if raw0.contains '%' then removeChar raw0 '%' else raw0
  let raw2 := swapChar raw1 nbsp ' '
  let raw3 := trimChars raw2
  let cpos := lastIdx raw3 ','
  let dpos := lastIdx raw3 '.'
  if 0 ≤ cpos ∧ 0 ≤ dpos then
    if dpos < cpos then goParseFloat (String.mk (swapChar (removeChar raw3 '.') ',' '.'))
    else goParseFloat (String.mk (removeChar raw3 ','))
  else
    let dec : Char := if 0 ≤ cpos then ',' else '.'
    let raw4 :=
      if thouOpt = runeZero then
        [',', '.', ' '].foldl (fun acc sep => if sep = dec then acc else removeChar acc sep) raw3
      else if thouOpt ≠ dec then removeChar raw3 thouOpt
      else raw3
    goParseFloat (String.mk (if dec ≠ '.' then swapChar raw4 dec '.' else raw4))

/-! ### Claim C4 -/

/-- Counterexample input for claim C4: the value "12 345" (embedded space,
no comma and no dot).  The claim resolves the decimal separator to the
dot and names no thousands separator, so by its wording nothing is
stripped and the parse fails; the code also strips spaces (and commas)
in this case and parses 12345. -/
theorem C4_counterexample :
    parseNumeric "12 345" "" {} = some ⟨12345, 1⟩ ∧
    parseNumericClaimC4 "12 345" = none ∧
    ({} : Options).DecimalSeparator = runeZero := by
  decide

/-- Claim C4, amended: in auto-decimal mode parseNumeric behaves as the
claim says when both separators occur; when at most one of them occurs
the decimal separator is comma (only commas present) or dot (otherwise),
and with no configured thousands separator all common separators (comma,
dot, space) other than the decimal one are stripped, a configured
thousands separator differing from the decimal one is stripped, and the
remainder is rewritten and parsed as a (possibly scientific) float. -/
theorem C4_corrected_theorem (s unit : String) (opt : Options)
    (h : opt.DecimalSeparator = runeZero) :
    parseNumeric s unit opt = parseNumericAutoSpec s opt.ThousandsSeparator := by
  simp only [parseNumeric, parseNumericAutoSpec, h]
  generalize trimChars (swapChar (if (trimChars s.data).contains '%' then
      removeChar (trimChars s.data) '%' else trimChars s.data) nbsp ' ') = r
  by_cases hc : 0 ≤ lastIdx r ','
  · by_cases hd : 0 ≤ lastIdx r '.'
    · by_cases h2 : lastIdx r '.' < lastIdx r ','
      · simp +decide [hc, hd, h2]
      · simp +decide [hc, hd, h2]
    · simp +decide [hc, hd]
  · by_cases hd : 0 ≤ lastIdx r '.'
    · simp +decide [hc, hd]
    · simp +decide [hc, hd]

theorem C4_witness :
    parseNumeric "1.234,5" "" {} = parseNumericAutoSpec "1.234,5" runeZero :=
  C4_corrected_theorem "1.234,5" "" {} (by decide)

/-! ### Association-list operations standing for Go maps -/

/-- Map read m[k] returning an Option. -/
def alookup {β : Type} : List (String × β) → String → Option β
  | [], _ => none
  | (k0, v0) :: rest, k => if k0 = k then some v0 else alookup rest k

def nlookup {β : Type} : List (Nat × β) → Nat → Option β
  | [], _ => none
  | (k0, v0) :: rest, k => if k0 = k then some v0 else nlookup rest k

/-- Map write m[k] = v: replace in place or append. -/
def alistSet {β : Type} : List (String × β) → String → β → List (String × β)
  | [], k, v => [(k, v)]
  | (k0, v0) :: rest, k, v =>
    if k0 = k then (k0, v) :: rest else (k0, v0) :: alistSet rest k v

def nlistSet {β : Type} : List (Nat × β) → Nat → β → List (Nat × β)
  | [], k, v => [(k, v)]
  | (k0, v0) :: rest, k, v =>
    if k0 = k then (k0, v) :: rest else (k0, v0) :: nlistSet rest k v

/-- Counter increment m[k]++ (missing key counts from zero, as in Go). -/
def alistBump : List (String × Nat) → String → List (String × Nat)
  | [], v => [(v, 1)]
  | (k, n) :: rest, v => if k = v then (k, n + 1) :: rest else (k, n) :: alistBump rest v

/-! ### splitUnits (table.go lines 899-920) -/

/-- Matcher for the regexes (.*)\s*\(([^)]+)\)\s*$ and the bracket twin:
the input is already trimmed, so this looks for a trailing close bracket
and pairs it with the rightmost open bracket such that the enclosed unit
text is nonempty and free of the close bracket (exactly the match the
greedy (.*) forces). -/
def bracketMatch (l : List Char) (op cl : Char) : Option (List Char × List Char) :=
  if l.getLast? = some cl then
    let body := l.dropLast
    let i := lastIdx body op
    if 0 ≤ i then
      let u := body.drop (i.toNat + 1)
      if u ≠ [] ∧ !(u.contains cl) then some (body.take i.toNat, u) else none
    else none
  else none

/-- Separator class [_\s-] of the third unit pattern (regexp \s is the
ASCII class). -/
def sepChar (c : Char) : Bool :=
  c == '_' || c == '-' || c == ' ' || c.toNat == 9 || c.toNat == 10 ||
  c.toNat == 12 || c.toNat == 13

def unitVocab : List (List Char) :=
  ["mg/L".data, "g/L".data, "ug/L".data, "°C".data, "°F".data,
   "Brix".data, "%".data, "ppm".data, "ppb".data]

/-- Matcher for ^(.*?)[_\s-]+(mg/L|g/L|ug/L|°[CF]|Brix|%|ppm|ppb)$: the
lazy prefix means the leftmost separator run whose following text is
exactly a vocabulary unit wins (no unit starts with a separator, so the
run is consumed whole). -/
def pat3Aux : List Char → List Char → Option (List Char × List Char)
  | _, [] => none
  | acc, c :: rest =>
    if sepChar c then
      let rem := (c :: rest).dropWhile sepChar
      if rem ≠ [] ∧ unitVocab.contains rem then some (acc, rem)
      else pat3Aux (acc ++ [c]) rest
    else pat3Aux (acc ++ [c]) rest

/-- Shared post-processing of a regex match: both captured groups are
trimmed and must be nonempty, otherwise the next pattern is tried. -/
def unitFromMatch (m : Option (List Char × List Char)) : Option (String × String) :=
  match m with
  | some (b, u) =>
    let base := String.mk (trimChars b)
    let unit := String.mk (trimChars u)
    if base ≠ "" ∧ unit ≠ "" then some (base, unit) else none
  | none => none

/-- splitUnits from table.go: trailing (unit), then trailing [unit], then
a trailing vocabulary unit after separators; first accepted match wins. -/
def splitUnits (name : String) : String × String :=
  let s := trimChars name.data
  match unitFromMatch (bracketMatch s '(' ')') with
  | some r => r
  | none =>
    match unitFromMatch (bracketMatch s '[' ']') with
    | some r => r
    | none =>
      match unitFromMatch (pat3Aux [] s) with
      | some r => r
      | none => (String.mk s, "")

/-! ### normalizeUnit (table.go lines 683-701) -/

/-- normalizeUnit: the source switches on unit + ">" + target; with
">"-free vocabulary units that concatenation is uniquely split, so the
model compares the pair componentwise. -/
def normalizeUnit (x : Frac) (unit : String) (opt : Options) : Frac × String × Bool :=
  match alookup opt.UnitTargets unit with
  | none => (x, unit, false)
  | some target =>
    if unit = "g/L" ∧ target = "mg/L" then (x.mul ⟨1000, 1⟩, target, true)
    else if unit = "ug/L" ∧ target = "mg/L" then (x.div ⟨1000, 1⟩, target, true)
    else if unit = "°F" ∧ target = "°C" then (((x.sub ⟨32, 1⟩).mul ⟨5, 1⟩).div ⟨9, 1⟩, target, true)
    else (x, unit, false)

/-! ### parseTimeMaybe (table.go lines 619-630), modelling time.Parse on
the fixed layout list -/

def takeDigitsN : Nat → List Char → Option (Nat × List Char)
  | 0, l => some (0, l)
  | _ + 1, [] => none
  | n + 1, c :: rest =>
    if isDigit c then
      match takeDigitsN n rest with
      | some (v, r) => some ((c.toNat - 48) * 10 ^ n + v, r)
      | none => none
    else none

/-- Go getnum with fixed width false: one or two digits. -/
def take12Digits : List Char → Option (Nat × List Char)
  | [] => none
  | c :: rest =>
    if isDigit c then
      match rest with
      | d :: r2 => if isDigit d then some ((c.toNat - 48) * 10 + (d.toNat - 48), r2)
                   else some (c.toNat - 48, rest)
      | [] => some (c.toNat - 48, [])
    else none

def expectC (c : Char) : List Char → Option (List Char)
  | [] => none
  | x :: rest => if x == c then some rest else none

def isLeap (y : Nat) : Bool := y % 4 = 0 && (y % 100 ≠ 0 || y % 400 = 0)

def daysIn (m y : Nat) : Nat :=
  if m = 2 then (if isLeap y then 29 else 28)
  else if m = 4 ∨ m = 6 ∨ m = 9 ∨ m = 11 then 30
  else 31

def validDate (y m d : Nat) : Bool :=
  1 ≤ m && m ≤ 12 && 1 ≤ d && d ≤ daysIn m y

def validHM (h mi : Nat) : Bool := h ≤ 23 && mi ≤ 59

/-- Optional fractional seconds (time.Parse accepts them after a seconds
element even when the layout has none). -/
def skipFraction (l : List Char) : List Char :=
  match l with
  | '.' :: c :: rest => if isDigit c then (c :: rest).dropWhile isDigit else l
  | _ => l

def parseDateSep (sep : Char) (l : List Char) : Option (Nat × Nat × Nat × List Char) :=
  match takeDigitsN 4 l with
  | none => none
  | some (y, r1) =>
    match expectC sep r1 with
    | none => none
    | some r2 =>
      match takeDigitsN 2 r2 with
      | none => none
      | some (m, r3) =>
        match expectC sep r3 with
        | none => none
        | some r4 =>
          match takeDigitsN 2 r4 with
          | none => none
          | some (d, r5) => if validDate y m d then some (y, m, d, r5) else none

def parseDMY (l : List Char) (dayFirst : Bool) : Option (Nat × Nat × Nat × List Char) :=
  match takeDigitsN 2 l with
  | none => none
  | some (a, r1) =>
    match expectC '/' r1 with
    | none => none
    | some r2 =>
      match takeDigitsN 2 r2 with
      | none => none
      | some (b, r3) =>
        match expectC '/' r3 with
        | none => none
        | some r4 =>
          match takeDigitsN 4 r4 with
          | none => none
          | some (y, r5) =>
            let m := if dayFirst then b else a
            let d := if dayFirst then a else b
            if validDate y m d then some (y, m, d, r5) else none

def parseHM (l : List Char) : Option (List Char) :=
  match takeDigitsN 2 l with
  | none => none
  | some (h, r1) =>
    match expectC ':' r1 with
    | none => none
    | some r2 =>
      match takeDigitsN 2 r2 with
      | none => none
      | some (mi, r3) => if validHM h mi then some r3 else none

def parseHMS (l : List Char) : Option (List Char) :=
  match parseHM l with
  | none => none
  | some r =>
    match expectC ':' r with
    | none => none
    | some r2 =>
      match takeDigitsN 2 r2 with
      | none => none
      | some (s, r3) => if s ≤ 59 then some (skipFraction r3) else none

def parseZone (l : List Char) : Option (List Char) :=
  match l with
  | 'Z' :: rest => some rest
  | c :: rest =>
    if c == '+' || c == '-' then
      match takeDigitsN 2 rest with
      | none => none
      | some (_, r1) =>
        match expectC ':' r1 with
        | none => none
        | some r2 =>
          match takeDigitsN 2 r2 with
          | none => none
          | some (_, r3) => some r3
    else none
  | [] => none

def matchRFC3339 (l : List Char) : Bool :=
  match parseDateSep '-' l with
  | none => false
  | some (_, _, _, r1) =>
    match expectC 'T' r1 with
    | none => false
    | some r2 =>
      match parseHMS r2 with
      | none => false
      | some r3 =>
        match parseZone r3 with
        | some [] => true
        | _ => false

def matchDateOnly (sep : Char) (l : List Char) : Bool :=
  match parseDateSep sep l with
  | some (_, _, _, []) => true
  | _ => false

def matchDMY (l : List Char) (dayFirst : Bool) : Bool :=
  match parseDMY l dayFirst with
  | some (_, _, _, []) => true
  | _ => false

def matchDateTime (l : List Char) (withSec : Bool) : Bool :=
  match parseDateSep '-' l with
  | none => false
  | some (_, _, _, r1) =>
    match expectC ' ' r1 with
    | none => false
    | some r2 =>
      if withSec then (match parseHMS r2 with | some [] => true | _ => false)
      else (match parseHM r2 with | some [] => true | _ => false)

def parseLooseDMY (l : List Char) : Option (List Char) :=
  match take12Digits l with
  | none => none
  | some (m, r1) =>
    match expectC '/' r1 with
    | none => none
    | some r2 =>
      match take12Digits r2 with
      | none => none
      | some (d, r3) =>
        match expectC '/' r3 with
        | none => none
        | some r4 =>
          match takeDigitsN 4 r4 with
          | none => none
          | some (y, r5) => if validDate y m d then some r5 else none

def matchLooseDateTime (l : List Char) (withSec : Bool) : Bool :=
  match parseLooseDMY l with
  | none => false
  | some r1 =>
    match expectC ' ' r1 with
    | none => false
    | some r2 =>
      if withSec then (match parseHMS r2 with | some [] => true | _ => false)
      else (match parseHM r2 with | some [] => true | _ => false)

/-- parseTimeMaybe: true when one of the fixed layouts accepts the value
(the callers only consume the Bool component of the Go result). -/
def parseTimeMaybe (s : String) : Bool :=
  let l := s.data
  matchRFC3339 l || matchDateOnly '-' l || matchDateOnly '/' l ||
  matchDMY l true || matchDMY l false ||
  matchDateTime l false || matchDateTime l true ||
  matchLooseDateTime l false || matchLooseDateTime l true

/-! ### Bounded category histogram (table.go lines 337-345, xlsx.go
lines 248-256) -/

/-- The per-cell categorical histogram update: the source guards with
len(c.cats) <= 10000 and len(v) <= 64 (byte length) before incrementing
the count of v. -/
def catsStep (cats : List (String × Nat)) (v : String) : List (String × Nat) :=
  if cats.length ≤ 10000 then
    (if byteLen v ≤ 64 then alistBump cats v else cats)
  else cats

/-! ### colIndexFromRef and the row-buffer write (xlsx.go lines 749-766
and 679-691) -/

/-- Two-complement wraparound of 64-bit Go int arithmetic. -/
def wrap64 (z : Int) : Int := (z + 2 ^ 63) % 2 ^ 64 - 2 ^ 63

def isAsciiLetter (c : Char) : Bool :=
  ('A' ≤ c && c ≤ 'Z') || ('a' ≤ c && c ≤ 'z')

def upperChar (c : Char) : Char :=
  if 'a' ≤ c && c ≤ 'z' then Char.ofNat (c.toNat - 32) else c

/-- colIndexFromRef: take the leading ASCII-letter run, uppercase it and
accumulate base-26 digits (A=1); the result is that value minus one.
The accumulation is Go int arithmetic and wraps at 64 bits. -/
def colIndexFromRef (ref : String) : Int :=
  let s := (ref.data.takeWhile isAsciiLetter).map upperChar
  let idx := s.foldl (fun idx c => wrap64 (idx * 26 + ((c.toNat : Int) - 65 + 1))) 0
  wrap64 (idx - 1)

/-- The cell write in sheetRowReader.Next: grow the row buffer to
colIdx+1 when needed, then write at colIdx; none models the index-out-of
range panic Go raises for a negative index. -/
def writeCell (curRow : List String) (colIdx : Int) (val : String) : Option (List String) :=
  let grown :=
    if (curRow.length : Int) ≤ colIdx then
      curRow ++ List.replicate (colIdx.toNat + 1 - curRow.length) ""
    else curRow
  if 0 ≤ colIdx ∧ colIdx < (grown.length : Int) then some (grown.set colIdx.toNat val)
  else none

/-! ### Support lemmas for claims C10 and C6 -/

theorem charToNat_ofNat (n : Nat) (h : n < 55296) : (Char.ofNat n).toNat = n := by
  have hv : n.isValidChar := Or.inl h
  simp [Char.ofNat, hv, Char.ofNatAux, Char.toNat, UInt32.ofNat']
  rfl

theorem wrap64_eq (z : Int) (h0 : 0 ≤ z) (h1 : z < 2 ^ 63) : wrap64 z = z := by
  unfold wrap64
  rw [Int.emod_eq_of_lt (by omega) (by omega)]
  omega

/-- Exact bound on the base-26 accumulation after k letters:
colBound k = 26 + 26^2 + ... + 26^k. -/
def colBound : Nat → Nat
  | 0 => 0
  | k + 1 => 26 * colBound k + 26

theorem colBound_le_succ (k : Nat) : colBound k ≤ colBound (k + 1) := by
  induction k with
  | zero => simp [colBound]
  | succ k ih => simp only [colBound] at ih ⊢; omega

theorem colBound_mono {k m : Nat} (h : k ≤ m) : colBound k ≤ colBound m := by
  induction m with
  | zero => have hz : k = 0 := Nat.le_zero.mp h; simp [hz]
  | succ m ih =>
    rcases Nat.lt_or_ge k (m + 1) with h2 | h2
    · exact le_trans (ih (by omega)) (colBound_le_succ m)
    · have hk : k = m + 1 := by omega
      simp [hk]

theorem colBound13_lt : (colBound 13 : Int) < 2 ^ 63 := by decide

theorem upperChar_bounds (c : Char) (h : isAsciiLetter c = true) :
    65 ≤ (upperChar c).toNat ∧ (upperChar c).toNat ≤ 90 := by
  unfold isAsciiLetter at h
  unfold upperChar
  simp only [Bool.or_eq_true] at h
  rcases h with h | h
  · have hb : 65 ≤ c.toNat ∧ c.toNat ≤ 90 := by simpa [Char.le_def] using h
    have hne : ¬(('a' ≤ c && c ≤ 'z') = true) := by
      intro hcontra
      have hb2 : 97 ≤ c.toNat ∧ c.toNat ≤ 122 := by simpa [Char.le_def] using hcontra
      omega
    rw [if_neg hne]
    exact hb
  · have hb : 97 ≤ c.toNat ∧ c.toNat ≤ 122 := by simpa [Char.le_def] using h
    rw [if_pos h]
    rw [charToNat_ofNat (c.toNat - 32) (by omega)]
    omega

def colStep (idx : Int) (c : Char) : Int := wrap64 (idx * 26 + ((c.toNat : Int) - 65 + 1))

theorem colFold_bounds (cs : List Char) : ∀ (a : Int) (k : Nat),
    (∀ c ∈ cs, 65 ≤ c.toNat ∧ c.toNat ≤ 90) →
    0 ≤ a → a ≤ (colBound k : Int) → cs.length + k ≤ 13 →
    (0 ≤ cs.foldl colStep a ∧ cs.foldl colStep a ≤ (colBound (cs.length + k) : Int)) ∧
    (1 ≤ a → 1 ≤ cs.foldl colStep a) := by
  induction cs with
  | nil =>
    intro a k _ h0 h1 _
    refine ⟨⟨by simpa using h0, by simpa using h1⟩, fun h => by simpa using h⟩
  | cons c rest ih =>
    intro a k hcs h0 h1 hk
    have hd := hcs c (List.mem_cons_self c rest)
    have hlk : rest.length + (k + 1) ≤ 13 := by
      simp only [List.length_cons] at hk; omega
    have hbk : (colBound (k + 1) : Int) ≤ (colBound 13 : Int) :=
      Int.ofNat_le.mpr (colBound_mono (by omega))
    have h13 := colBound13_lt
    have hle : a * 26 + ((c.toNat : Int) - 65 + 1) ≤ (colBound (k + 1) : Int) := by
      simp only [colBound]
      push_cast
      nlinarith
    have hstep : colStep a c = a * 26 + ((c.toNat : Int) - 65 + 1) := by
      apply wrap64_eq
      · omega
      · omega
    have hnext : 0 ≤ colStep a c ∧ colStep a c ≤ (colBound (k + 1) : Int) := by
      rw [hstep]
      exact ⟨by omega, hle⟩
    have hrec := ih (colStep a c) (k + 1) (fun x hx => hcs x (List.mem_cons_of_mem c hx))
      hnext.1 hnext.2 hlk
    constructor
    · have hlen : rest.length + (k + 1) = (c :: rest).length + k := by
        simp only [List.length_cons]; omega
      rw [List.foldl_cons]
      exact ⟨hrec.1.1, by rw [← hlen]; exact hrec.1.2⟩
    · intro _
      rw [List.foldl_cons]
      apply hrec.2
      rw [hstep]; omega

/-- True when the cell reference begins with an ASCII letter. -/
def headIsLetter (ref : String) : Bool :=
  match ref.data with
  | [] => false
  | c :: _ => isAsciiLetter c

/-- Claim C10, amended: a reference starting with at most 13 ASCII
letters yields a nonnegative 0-based column index and an in-bounds
buffer write; a reference that is empty or starts with a non-letter
yields -1 and the write takes the out-of-bounds branch.  (With 14 or
more letters the 64-bit accumulation can wrap below zero, see the
counterexample.) -/
theorem C10_corrected_theorem (ref : String) (cur : List String) (val : String) :
    (headIsLetter ref = true → (ref.data.takeWhile isAsciiLetter).length ≤ 13 →
      0 ≤ colIndexFromRef ref ∧ (writeCell cur (colIndexFromRef ref) val).isSome = true) ∧
    (headIsLetter ref = false →
      colIndexFromRef ref = -1 ∧ writeCell cur (colIndexFromRef ref) val = none) := by
  have hr : colIndexFromRef ref
      = wrap64 ((((ref.data.takeWhile isAsciiLetter).map upperChar).foldl colStep 0) - 1) := rfl
  constructor
  · intro hhead hlen
    have hidx : 0 ≤ colIndexFromRef ref := by
      cases hdat : ref.data with
      | nil => simp [headIsLetter, hdat] at hhead
      | cons c rest =>
        have hc : isAsciiLetter c = true := by
          simpa [headIsLetter, hdat] using hhead
        rw [hdat, List.takeWhile_cons_of_pos hc] at hr
        rw [hdat, List.takeWhile_cons_of_pos hc] at hlen
        simp only [List.map_cons, List.foldl_cons] at hr
        have huc := upperChar_bounds c hc
        have hstep0 : colStep 0 (upperChar c) = ((upperChar c).toNat : Int) - 64 := by
          unfold colStep
          rw [show (0 : Int) * 26 + (((upperChar c).toNat : Int) - 65 + 1)
              = ((upperChar c).toNat : Int) - 64 by ring]
          apply wrap64_eq <;> omega
        have hlen2 : (rest.takeWhile isAsciiLetter).length + 1 ≤ 13 := by
          simpa using hlen
        have hbounds := colFold_bounds ((rest.takeWhile isAsciiLetter).map upperChar)
          (colStep 0 (upperChar c)) 1
          (by
            intro x hx
            rcases List.mem_map.mp hx with ⟨y, hy, rfl⟩
            exact upperChar_bounds y (List.mem_takeWhile_imp hy))
          (by rw [hstep0]; omega)
          (by rw [hstep0]; simp only [colBound]; omega)
          (by simpa using hlen2)
        have h1le : 1 ≤ (((rest.takeWhile isAsciiLetter).map upperChar).foldl colStep
            (colStep 0 (upperChar c))) := by
          apply hbounds.2
          rw [hstep0]; omega
        have hub : (((rest.takeWhile isAsciiLetter).map upperChar).foldl colStep
            (colStep 0 (upperChar c))) ≤ (colBound 13 : Int) := by
          refine le_trans hbounds.1.2 ?_
          exact_mod_cast colBound_mono (by simpa using hlen2)
        have h13 := colBound13_lt
        rw [hr, wrap64_eq _ (by omega) (by omega)]
        omega
    refine ⟨hidx, ?_⟩
    unfold writeCell
    by_cases hg : (cur.length : Int) ≤ colIndexFromRef ref
    · rw [if_pos hg, if_pos (by
        refine ⟨hidx, ?_⟩
        simp only [List.length_append, List.length_replicate]
        omega)]
      rfl
    · rw [if_neg hg, if_pos ⟨hidx, by omega⟩]
      rfl
  · intro hhead
    have hidx : colIndexFromRef ref = -1 := by
      cases hdat : ref.data with
      | nil =>
        rw [hdat] at hr
        simp only [List.takeWhile_nil, List.map_nil, List.foldl_nil] at hr
        rw [hr]; decide
      | cons c rest =>
        have hc : isAsciiLetter c = false := by
          simpa [headIsLetter, hdat] using hhead
        rw [hdat, List.takeWhile_cons_of_neg (by simp [hc])] at hr
        simp only [List.map_nil, List.foldl_nil] at hr
        rw [hr]; decide
    refine ⟨hidx, ?_⟩
    rw [hidx]
    unfold writeCell
    rw [if_neg (by omega)]

set_option maxRecDepth 10000 in
/-- Counterexample for claim C10 as stated: a reference of 14 letters
begins with an ASCII letter, yet the wrapped 64-bit accumulation makes
colIndexFromRef negative (so the subsequent write would panic). -/
theorem C10_counterexample :
    headIsLetter "ZZZZZZZZZZZZZZ" = true ∧ colIndexFromRef "ZZZZZZZZZZZZZZ" < 0 := by
  decide

theorem C10_witness :
    (0 ≤ colIndexFromRef "C12" ∧ (writeCell [] (colIndexFromRef "C12") "v").isSome = true) ∧
    (colIndexFromRef "" = -1 ∧ writeCell [] (colIndexFromRef "") "v" = none) :=
  ⟨( C10_corrected_theorem "C12" [] "v").1 (by decide) (by decide),
   ( C10_corrected_theorem "" [] "v").2 (by decide)⟩

/-! ### Decimal digit strings (counterexample fuel for claim C6) -/

/-- Little-endian decimal digits (the fuel makes the recursion
structural; fuel n+1 always suffices since the argument shrinks). -/
def natDigitsAux : Nat → Nat → List Nat
  | 0, _ => []
  | f + 1, n => if n < 10 then [n] else n % 10 :: natDigitsAux f (n / 10)

def natDigits (n : Nat) : List Nat := natDigitsAux (n + 1) n

def digitChar (d : Nat) : Char := Char.ofNat (48 + d)

/-- Decimal rendering of a Nat used to build many distinct short cell
values. -/
def natToStr (n : Nat) : String := String.mk ((natDigits n).reverse.map digitChar)

def undigits : List Nat → Nat
  | [] => 0
  | d :: rest => d + 10 * undigits rest

theorem undigits_natDigitsAux : ∀ (f n : Nat), n ≤ f → undigits (natDigitsAux f n) = n := by
  intro f
  induction f with
  | zero =>
    intro n h
    have hz : n = 0 := by omega
    subst hz
    simp [natDigitsAux, undigits]
  | succ f ih =>
    intro n h
    unfold natDigitsAux
    by_cases h10 : n < 10
    · simp [h10, undigits]
    · rw [if_neg h10]
      simp only [undigits]
      rw [ih (n / 10) (by
        have := Nat.div_lt_self (by omega : 0 < n) (by omega : 1 < 10)
        omega)]
      omega

theorem undigits_natDigits (n : Nat) : undigits (natDigits n) = n :=
  undigits_natDigitsAux (n + 1) n (by omega)

theorem natDigitsAux_lt10 : ∀ (f n : Nat), ∀ d ∈ natDigitsAux f n, n ≤ f → d < 10 := by
  intro f
  induction f with
  | zero => intro n d hd _; simp [natDigitsAux] at hd
  | succ f ih =>
    intro n d hd h
    unfold natDigitsAux at hd
    by_cases h10 : n < 10
    · simp [h10] at hd; omega
    · rw [if_neg h10] at hd
      rcases List.mem_cons.mp hd with h1 | h1
      · subst h1; exact Nat.mod_lt n (by omega)
      · exact ih (n / 10) d h1 (by
          have := Nat.div_lt_self (by omega : 0 < n) (by omega : 1 < 10)
          omega)

theorem natDigits_lt10 (n : Nat) : ∀ d ∈ natDigits n, d < 10 :=
  fun d hd => natDigitsAux_lt10 (n + 1) n d hd (by omega)

theorem digitChar_toNat (d : Nat) (h : d < 10) : (digitChar d).toNat = 48 + d :=
  charToNat_ofNat (48 + d) (by omega)

theorem map_digitChar_inj : ∀ (l1 l2 : List Nat), (∀ d ∈ l1, d < 10) → (∀ d ∈ l2, d < 10) →
    l1.map digitChar = l2.map digitChar → l1 = l2 := by
  intro l1
  induction l1 with
  | nil => intro l2 _ _ h; cases l2 <;> simp_all
  | cons a rest ih =>
    intro l2 h1 h2 h
    cases l2 with
    | nil => simp at h
    | cons b rest2 =>
      simp only [List.map_cons, List.cons.injEq] at h
      have ha : a < 10 := h1 a (List.mem_cons_self a rest)
      have hb : b < 10 := h2 b (List.mem_cons_self b rest2)
      have hab : a = b := by
        have := congrArg Char.toNat h.1
        rw [digitChar_toNat a ha, digitChar_toNat b hb] at this
        omega
      rw [hab, ih rest2 (fun d hd => h1 d (List.mem_cons_of_mem a hd))
        (fun d hd => h2 d (List.mem_cons_of_mem b hd)) h.2]

theorem natToStr_inj : Function.Injective natToStr := by
  intro a b h
  unfold natToStr at h
  have hl : (natDigits a).reverse.map digitChar = (natDigits b).reverse.map digitChar := by
    have := congrArg String.data h
    simpa using this
  have hrev : (natDigits a).reverse = (natDigits b).reverse :=
    map_digitChar_inj _ _
      (fun d hd => natDigits_lt10 a d (List.mem_reverse.mp hd))
      (fun d hd => natDigits_lt10 b d (List.mem_reverse.mp hd)) hl
  have hdig : natDigits a = natDigits b := List.reverse_injective hrev
  have := congrArg undigits hdig
  rwa [undigits_natDigits, undigits_natDigits] at this

theorem natDigitsAux_len : ∀ (f n k : Nat), n < 10 ^ k → 1 ≤ k → n ≤ f →
    (natDigitsAux f n).length ≤ k := by
  intro f
  induction f with
  | zero => intro n k _ hk _; simp only [natDigitsAux, List.length_nil]; omega
  | succ f ih =>
    intro n k hn hk h
    unfold natDigitsAux
    by_cases h10 : n < 10
    · simp [h10]; omega
    · rw [if_neg h10]
      simp only [List.length_cons]
      have hk2 : 2 ≤ k := by
        by_contra hc
        have : k = 1 := by omega
        simp [this] at hn
        omega
      have hdiv : n / 10 < 10 ^ (k - 1) := by
        rw [Nat.div_lt_iff_lt_mul (by omega : 0 < 10)]
        calc n < 10 ^ k := hn
        _ = 10 ^ (k - 1) * 10 := by
          rw [← Nat.pow_succ]
          congr 1
          omega
      have := ih (n / 10) (k - 1) hdiv (by omega) (by
        have := Nat.div_lt_self (by omega : 0 < n) (by omega : 1 < 10)
        omega)
      omega

theorem byteLen_natToStr (n : Nat) (h : n < 100000) : byteLen (natToStr n) ≤ 64 := by
  unfold byteLen natToStr
  have hone : ∀ c ∈ ((natDigits n).reverse.map digitChar), charBytes c = 1 := by
    intro c hc
    rcases List.mem_map.mp hc with ⟨d, hd, rfl⟩
    have hd10 : d < 10 := natDigits_lt10 n d (List.mem_reverse.mp hd)
    unfold charBytes
    rw [if_pos (by rw [digitChar_toNat d hd10]; omega)]
  have hmk : (String.mk ((natDigits n).reverse.map digitChar)).data
      = (natDigits n).reverse.map digitChar := rfl
  rw [hmk, List.map_congr_left hone]
  have hsum : (((natDigits n).reverse.map digitChar).map (fun _ => (1 : Nat))).sum
      = ((natDigits n).reverse.map digitChar).length := by
    induction ((natDigits n).reverse.map digitChar) with
    | nil => simp
    | cons c rest ih => simp [ih]; omega
  rw [hsum]
  simp only [List.length_map, List.length_reverse]
  have := natDigitsAux_len (n + 1) n 5 (by omega) (by omega) (by omega)
  unfold natDigits
  omega

/-! ### Histogram lemmas for claim C6 -/

theorem alistBump_length_le (cats : List (String × Nat)) (v : String) :
    (alistBump cats v).length ≤ cats.length + 1 := by
  induction cats with
  | nil => simp [alistBump]
  | cons p rest ih =>
    unfold alistBump
    by_cases h : p.1 = v
    · simp [h]
    · rw [if_neg h]
      simp only [List.length_cons]
      omega

theorem alistBump_length_of_none (cats : List (String × Nat)) (v : String)
    (h : alookup cats v = none) : (alistBump cats v).length = cats.length + 1 := by
  induction cats with
  | nil => simp [alistBump]
  | cons p rest ih =>
    unfold alookup at h
    unfold alistBump
    by_cases hp : p.1 = v
    · rw [if_pos hp] at h; simp at h
    · rw [if_neg hp] at h
      rw [if_neg hp]
      simp only [List.length_cons]
      rw [ih h]

theorem alookup_alistBump_self (cats : List (String × Nat)) (v : String) :
    alookup (alistBump cats v) v = some ((alookup cats v).getD 0 + 1) := by
  induction cats with
  | nil => simp [alistBump, alookup]
  | cons p rest ih =>
    unfold alistBump
    by_cases hp : p.1 = v
    · rw [if_pos hp]
      simp only [alookup]
      rw [if_pos hp, if_pos hp]
      simp
    · rw [if_neg hp]
      simp only [alookup]
      rw [if_neg hp, if_neg hp]
      exact ih

theorem alookup_alistBump_ne (cats : List (String × Nat)) (v s : String)
    (h : s ≠ v) : alookup (alistBump cats v) s = alookup cats s := by
  induction cats with
  | nil =>
    simp only [alistBump, alookup]
    rw [if_neg (fun he => h he.symm)]
  | cons p rest ih =>
    unfold alistBump
    by_cases hp : p.1 = v
    · rw [if_pos hp]
      have hps : ¬(p.1 = s) := by
        rw [hp]
        exact fun he => h he.symm
      simp only [alookup]
      rw [if_neg hps, if_neg hps]
    · rw [if_neg hp]
      simp only [alookup]
      by_cases hps : p.1 = s
      · rw [if_pos hps, if_pos hps]
      · rw [if_neg hps, if_neg hps]
        exact ih

theorem catsFold_fresh : ∀ (l : List String) (cats : List (String × Nat)),
    l.Nodup → (∀ s ∈ l, byteLen s ≤ 64) → (∀ s ∈ l, alookup cats s = none) →
    cats.length + l.length ≤ 10001 →
    (l.foldl catsStep cats).length = cats.length + l.length := by
  intro l
  induction l with
  | nil => intro cats _ _ _ _; simp
  | cons s rest ih =>
    intro cats hnd hlen hfresh htot
    simp only [List.foldl_cons, List.length_cons]
    have hcap : cats.length ≤ 10000 := by
      simp only [List.length_cons] at htot
      omega
    have hstep : catsStep cats s = alistBump cats s := by
      unfold catsStep
      rw [if_pos hcap, if_pos (hlen s (List.mem_cons_self s rest))]
    rw [hstep]
    have hlenb := alistBump_length_of_none cats s (hfresh s (List.mem_cons_self s rest))
    rw [ih (alistBump cats s) (List.Nodup.of_cons hnd)
      (fun t ht => hlen t (List.mem_cons_of_mem s ht))
      (fun t ht => by
        rw [alookup_alistBump_ne cats s t (by
          intro he
          exact (List.nodup_cons.mp hnd).1 (he ▸ ht))]
        exact hfresh t (List.mem_cons_of_mem s ht))
      (by simp only [List.length_cons] at htot; omega)]
    rw [hlenb]
    omega

theorem catsStep_length_le (cats : List (String × Nat)) (v : String)
    (h : cats.length ≤ 10001) : (catsStep cats v).length ≤ 10001 := by
  unfold catsStep
  by_cases h1 : cats.length ≤ 10000
  · rw [if_pos h1]
    by_cases h2 : byteLen v ≤ 64
    · rw [if_pos h2]
      have := alistBump_length_le cats v
      omega
    · rw [if_neg h2]; exact h
  · rw [if_neg h1]; exact h

theorem catsFold_cap : ∀ (l : List String) (cats : List (String × Nat)),
    cats.length ≤ 10001 → (l.foldl catsStep cats).length ≤ 10001 := by
  intro l
  induction l with
  | nil => intro cats h; simpa using h
  | cons s rest ih =>
    intro cats h
    simp only [List.foldl_cons]
    exact ih (catsStep cats s) (catsStep_length_le cats s h)

/-! ### Claim C6 -/

/-- The 10001 distinct decimal strings used to overfill the histogram. -/
def overfill : List String := (List.range 10001).map natToStr

theorem overfill_length : overfill.length = 10001 := by
  unfold overfill
  rw [List.length_map, List.length_range]

/-- Counterexample for claim C6 as stated: inserting 10001 distinct
strings of at most 64 bytes leaves the histogram with 10001 distinct
keys (the guard is len <= 10000, so the 10001st key still enters), and
from that point even values already present are no longer counted. -/
theorem C6_counterexample :
    (overfill.foldl catsStep []).length = 10001 ∧
    catsStep (overfill.foldl catsStep []) (natToStr 0) = overfill.foldl catsStep [] := by
  have hnd : overfill.Nodup := (List.nodup_range 10001).map natToStr_inj
  have hlen : ∀ s ∈ overfill, byteLen s ≤ 64 := by
    intro s hs
    rcases List.mem_map.mp hs with ⟨n, hn, rfl⟩
    exact byteLen_natToStr n (by
      have := List.mem_range.mp hn
      omega)
  have hfull : (overfill.foldl catsStep []).length = 10001 := by
    have hfr := catsFold_fresh overfill [] hnd hlen (fun s _ => rfl)
      (by rw [overfill_length]; simp)
    rw [overfill_length] at hfr
    simpa using hfr
  refine ⟨hfull, ?_⟩
  have hstop : ∀ (c : List (String × Nat)), c.length = 10001 →
      catsStep c (natToStr 0) = c := by
    intro c hc
    unfold catsStep
    rw [if_neg (by omega)]
  exact hstop _ hfull

/-- Claim C6, amended: the histogram is capped at 10001 distinct keys
(not 10000); only strings of at most 64 bytes are counted; while the
histogram holds at most 10000 keys both present and new short values
are counted; and once it exceeds 10000 keys (i.e. at 10001) every
further update, including for values already present, is dropped. -/
theorem C6_corrected_theorem (cats : List (String × Nat)) (v : String)
    (updates : List String) :
    ((updates.foldl catsStep []).length ≤ 10001) ∧
    (64 < byteLen v → catsStep cats v = cats) ∧
    (10000 < cats.length → catsStep cats v = cats) ∧
    (cats.length ≤ 10000 → byteLen v ≤ 64 →
      alookup (catsStep cats v) v = some ((alookup cats v).getD 0 + 1)) := by
  refine ⟨catsFold_cap updates [] (by simp), ?_, ?_, ?_⟩
  · intro h
    unfold catsStep
    by_cases h1 : cats.length ≤ 10000
    · rw [if_pos h1, if_neg (by omega)]
    · rw [if_neg h1]
  · intro h
    unfold catsStep
    rw [if_neg (by omega)]
  · intro h1 h2
    unfold catsStep
    rw [if_pos h1, if_pos h2]
    exact alookup_alistBump_self cats v

theorem C6_witness :
    ((["a", "b"].foldl catsStep []).length ≤ 10001) ∧
    alookup (catsStep [] "x") "x" = some ((alookup ([] : List (String × Nat)) "x").getD 0 + 1) :=
  ⟨(C6_corrected_theorem [] "x" ["a", "b"]).1,
   (C6_corrected_theorem [] "x" ["a", "b"]).2.2.2 (by decide) (by decide)⟩

/-! ### Data model (table.go lines 57-119) -/

structure CategoryCount where
  Value : String
  Count : Nat
deriving DecidableEq, Repr

structure ColumnSummary where
  Name : String
  Kind : String
  Unit : String
  NonNull : Nat
  Missing : Nat
  Unique : Nat
  Min : Frac
  Max : Frac
  Mean : Frac
  Std : Frac
  OutliersCount : Nat
  OutliersMaxAbsZ : Frac
  OutlierThreshold : Frac
  TopValues : List CategoryCount
  ExampleTexts : List String
deriving DecidableEq, Repr

structure NumSummary where
  Count : Nat
  Min : Frac
  Max : Frac
  Mean : Frac
deriving DecidableEq, Repr

structure PairCorr where
  A : String
  B : String
  R : Frac
deriving DecidableEq, Repr

structure GroupResult where
  Key : String
  Size : Nat
  Metrics : List (String × NumSummary)
  CorrPairs : List PairCorr
deriving DecidableEq, Repr

structure CorrMatrix where
  Columns : List String
  Values : List (List Frac)
deriving DecidableEq, Repr

structure Report where
  Name : String
  Rows : Nat
  Processed : Nat
  Cols : List ColumnSummary
  Samples : List (List String)
  Warnings : List String
  Groups : List GroupResult
  Corr : Option CorrMatrix
deriving DecidableEq, Repr

def emptyReport (name : String) : Report := ⟨name, 0, 0, [], [], [], [], none⟩

/-! ### Internal accumulators (colAcc, pairAcc, gAcc in AnalyzeCSV) -/

structure ColAcc where
  name : String
  unit : String
  origUnit : String
  nonNil : Nat
  miss : Nat
  n : Nat
  mean : Frac
  m2 : Frac
  minv : Option Frac
  maxv : Option Frac
  numCnt : Nat
  dtCnt : Nat
  txtCnt : Nat
  cats : List (String × Nat)
  exText : List String
deriving DecidableEq, Repr

def emptyColAcc : ColAcc :=
  ⟨"", "", "", 0, 0, 0, 0, 0, none, none, 0, 0, 0, [], []⟩

structure PairAcc where
  n : Frac
  sumX : Frac
  sumY : Frac
  sumXX : Frac
  sumYY : Frac
  sumXY : Frac
deriving DecidableEq, Repr

def PairAcc.zero : PairAcc := ⟨0, 0, 0, 0, 0, 0⟩

structure GAcc where
  size : Nat
  sum : List (Nat × Frac)
  cnt : List (Nat × Nat)
  minv : List (Nat × Frac)
  maxv : List (Nat × Frac)
deriving DecidableEq, Repr

def GAcc.empty : GAcc := ⟨0, [], [], [], []⟩

/-- Oracle for Go map iteration order: each field reorders the contents
of one family of maps before a range loop consumes it.  A lawful oracle
only permutes. -/
structure MapOrder where
  onCats : List (String × Nat) → List (String × Nat)
  onGroups : List (String × GAcc) → List (String × GAcc)
  onPairs : List (Nat × PairAcc) → List (Nat × PairAcc)
  onKeys : List String → List String

def MapOrder.Lawful (o : MapOrder) : Prop :=
  (∀ l, List.Perm (o.onCats l) l) ∧ (∀ l, List.Perm (o.onGroups l) l) ∧
  (∀ l, List.Perm (o.onPairs l) l) ∧ (∀ l, List.Perm (o.onKeys l) l)

def idOrder : MapOrder := ⟨id, id, id, id⟩

theorem idOrder_lawful : idOrder.Lawful :=
  ⟨fun l => List.Perm.refl l, fun l => List.Perm.refl l,
   fun l => List.Perm.refl l, fun l => List.Perm.refl l⟩

/-! ### Renderer-adjacent helpers (table.go lines 890-897) -/

def safeVal (s : String) : String :=
  String.mk (swapChar (swapChar s.data '\n' ' ') '|' '/')

def safeName (s : String) : String :=
  let t := goTrim s
  if t = "" then "(unnamed)" else t

/-! ### The sort.Slice comparators (less functions from the source) -/

def lessCat (a b : CategoryCount) : Bool :=
  if a.Count = b.Count then strLt a.Value b.Value else decide (b.Count < a.Count)

def lessGroup (a b : GroupResult) : Bool :=
  if a.Size = b.Size then strLt a.Key b.Key else decide (b.Size < a.Size)

def lessPair (a b : PairCorr) : Bool :=
  if a.R.fabs.veq b.R.fabs then strLt (a.A ++ a.B) (b.A ++ b.B)
  else decide (b.R.fabs < a.R.fabs)

/-- go sort.Slice(l, less): some permutation of l in which no later
element is less than an earlier one.  A stable sort applied to the
oracle-permuted input ranges over exactly those outcomes. -/
def goSortSlice {α : Type} (less : α → α → Bool) (l : List α) : List α :=
  List.insertionSort (fun a b => less b a = false) l

/-- go sort.Float64s, ascending. -/
def goSortFloats (l : List Frac) : List Frac :=
  List.insertionSort (fun a b : Frac => a ≤ b) l

/-! ### quantile and medianMAD (table.go lines 935-975) -/

def Frac.floorI (a : Frac) : Int := a.num / (a.den : Int)

def Frac.ceilI (a : Frac) : Int := -((-a.num) / (a.den : Int))

def quantile (sorted : List Frac) (q : Frac) : Frac :=
  if sorted.length = 0 then 0
  else if q ≤ 0 then sorted.headD 0
  else if 1 ≤ q then sorted.getLastD 0
  else
    let pos := q * ⟨(sorted.length : Int) - 1, 1⟩
    let lo := pos.floorI
    let hi := pos.ceilI
    if lo = hi then sorted.getD lo.toNat 0
    else
      let w := pos - ⟨lo, 1⟩
      sorted.getD lo.toNat 0 * (1 - w) + sorted.getD hi.toNat 0 * w

def medianMAD (vals : List Frac) : Frac × Frac :=
  if vals.length = 0 then (0, 0)
  else
    let cp := goSortFloats vals
    let median := quantile cp (mkFrac 1 2)
    let dev := cp.map (fun v => (v - median).fabs)
    let devS := goSortFloats dev
    (median, quantile devS (mkFrac 1 2))

/-! ### Row accumulation (the main loop of AnalyzeCSV, lines 222-419;
AnalyzeXLSX lines 151-325 duplicate this loop verbatim except for the
sample-row default handled in the wrappers below) -/

structure RowCtx where
  rowNums : List (Nat × Frac)
  groups : List (String × GAcc)

def gAccAddNum (ga : GAcc) (j : Nat) (x : Frac) : GAcc :=
  { size := ga.size
    sum := nlistSet ga.sum j ((nlookup ga.sum j).getD 0 + x)
    cnt := nlistSet ga.cnt j ((nlookup ga.cnt j).getD 0 + 1)
    minv :=
      match nlookup ga.minv j with
      | none => nlistSet ga.minv j x
      | some m => if x < m then nlistSet ga.minv j x else ga.minv
    maxv :=
      match nlookup ga.maxv j with
      | none => nlistSet ga.maxv j x
      | some m => if m < x then nlistSet ga.maxv j x else ga.maxv }

def groupsAddNum (groups : List (String × GAcc)) (gkey : String) (j : Nat) (x : Frac) :
    List (String × GAcc) :=
  match alookup groups gkey with
  | none => alistSet groups gkey (gAccAddNum GAcc.empty j x)
  | some ga => alistSet groups gkey (gAccAddNum ga j x)

def groupsBumpSize (groups : List (String × GAcc)) (gkey : String) : List (String × GAcc) :=
  match alookup groups gkey with
  | none => alistSet groups gkey { GAcc.empty with size := 1 }
  | some ga => alistSet groups gkey { ga with size := ga.size + 1 }

/-- Processing of one cell (the j-loop body, lines 272-346): empty cell
counts missing; otherwise numeric, then datetime, then text/categorical. -/
def cellStep (opt : Options) (gkey : String) (j : Nat) (ca0 : ColAcc) (nv : List Frac)
    (cell : String) (ctx : RowCtx) : ColAcc × List Frac × RowCtx :=
  let v := goTrim cell
  if v = "" then ({ ca0 with miss := ca0.miss + 1 }, nv, ctx)
  else
    let ca1 := { ca0 with nonNil := ca0.nonNil + 1 }
    let ca2 :=
      if containsChar v '%' ∧ ca1.unit = "" then
        { ca1 with unit := "%", origUnit := if ca1.origUnit = "" then "%" else ca1.origUnit }
      else ca1
    match parseNumeric v ca2.unit opt with
    | some x0 =>
      let xu : Frac × String :=
        if opt.UnitNormalize ∧ ca2.origUnit ≠ "" then
          match normalizeUnit x0 ca2.origUnit opt with
          | (nx, nu, true) => (nx, nu)
          | (_, _, false) => (x0, ca2.unit)
        else (x0, ca2.unit)
      let x := xu.1
      let n2 := ca2.n + 1
      let delta := x - ca2.mean
      let mean2 := ca2.mean + delta / Frac.ofInt (Int.ofNat n2)
      let ca3 := { ca2 with
        unit := xu.2
        numCnt := ca2.numCnt + 1
        n := n2
        minv :=
          match ca2.minv with
          | none => some x
          | some m => if x < m then some x else some m
        maxv :=
          match ca2.maxv with
          | none => some x
          | some m => if m < x then some x else some m
        mean := mean2
        m2 := ca2.m2 + delta * (x - mean2) }
      let rowNums2 := if opt.Correlations then ctx.rowNums ++ [(j, x)] else ctx.rowNums
      let groups2 := if gkey ≠ "" then groupsAddNum ctx.groups gkey j x else ctx.groups
      (ca3, nv ++ [x], ⟨rowNums2, groups2⟩)
    | none =>
      if parseTimeMaybe v then ({ ca2 with dtCnt := ca2.dtCnt + 1 }, nv, ctx)
      else
        let ca3 := { ca2 with txtCnt := ca2.txtCnt + 1, cats := catsStep ca2.cats v }
        let ca4 := if ca3.exText.length < 3 then { ca3 with exText := ca3.exText ++ [v] } else ca3
        (ca4, nv, ctx)

def colsLoop (opt : Options) (gkey : String) :
    Nat → List ColAcc → List (List Frac) → List String → RowCtx →
    List ColAcc × List (List Frac) × RowCtx
  | _, [], _, _, ctx => ([], [], ctx)
  | j, ca :: cas, nvs, cells, ctx =>
    let r1 := cellStep opt gkey j ca (nvs.headD []) (cells.headD "") ctx
    let r2 := colsLoop opt gkey (j + 1) cas nvs.tail cells.tail r1.2.2
    (r1.1 :: r2.1, r1.2.1 :: r2.2.1, r2.2.2)

/-- The per-row group key (lines 250-264): matched group-by columns
formatted name=value and joined with " | "; empty when nothing matched. -/
def groupKey (opt : Options) (gbIndex : List (String × Nat)) (colNames : List String)
    (rec : List String) : String :=
  if opt.GroupBy = [] then ""
  else
    let parts := opt.GroupBy.foldl (fun acc nm =>
      match alookup gbIndex (goLower (goTrim nm)) with
      | none => acc
      | some idx =>
        if rec.length ≤ idx then acc
        else acc ++ [(colNames.getD idx "") ++ "=" ++ safeVal (goTrim (rec.getD idx ""))]) []
    if parts = [] then "" else joinSep " | " parts

def pairBump (pairs : List (Nat × PairAcc)) (key : Nat) (x y : Frac) :
    List (Nat × PairAcc) :=
  let pa := (nlookup pairs key).getD PairAcc.zero
  nlistSet pairs key
    ⟨pa.n + 1, pa.sumX + x, pa.sumY + y, pa.sumXX + x * x, pa.sumYY + y * y, pa.sumXY + x * y⟩

def ordPairsAux {α : Type} : List α → List α → List (α × α)
  | _, [] => []
  | seen, x :: rest => (seen.map (fun s => (s, x))) ++ ordPairsAux (seen ++ [x]) rest

/-- All ordered pairs (earlier, later) of a list, in the a-major b-minor
order of the source loops (a from 1, b below a, over the sorted key
list; rowNums is built in ascending column order already). -/
def ordPairs {α : Type} (l : List α) : List (α × α) := ordPairsAux [] l

def updatePairs (ncol : Nat) (pairs : List (Nat × PairAcc)) (rowNums : List (Nat × Frac)) :
    List (Nat × PairAcc) :=
  (ordPairs rowNums).foldl (fun acc pq =>
    pairBump acc (pq.2.1 * ncol + pq.1.1) pq.2.2 pq.1.2) pairs

structure AccState where
  rows : Nat
  processed : Nat
  samples : List (List String)
  cols : List ColAcc
  numericVals : List (List Frac)
  pairs : List (Nat × PairAcc)
  groups : List (String × GAcc)
  gPairs : List (String × List (Nat × PairAcc))

/-- maxRows resolution (lines 188-191): nonpositive MaxRows means
math.MaxInt. -/
def resolvedMaxRows (opt : Options) : Int :=
  if opt.MaxRows ≤ 0 then 2 ^ 63 - 1 else opt.MaxRows

def procRow (opt : Options) (ncol : Nat) (gbIndex : List (String × Nat))
    (colNames : List String) (sampleRows : Int) (st : AccState) (rec : List String) :
    AccState :=
  let rows2 := st.rows + 1
  let rec2 := rec ++ List.replicate (ncol - rec.length) ""
  if resolvedMaxRows opt ≤ (st.processed : Int) then { st with rows := rows2 }
  else
    let processed2 := st.processed + 1
    let samples2 :=
      if (st.samples.length : Int) < sampleRows then st.samples ++ [rec2.take ncol]
      else st.samples
    let gkey := groupKey opt gbIndex colNames rec2
    let r := colsLoop opt gkey 0 st.cols st.numericVals rec2 ⟨[], st.groups⟩
    let groupsB := if gkey ≠ "" then groupsBumpSize r.2.2.groups gkey else r.2.2.groups
    let pairs2 :=
      if opt.Correlations ∧ 2 ≤ r.2.2.rowNums.length then updatePairs ncol st.pairs r.2.2.rowNums
      else st.pairs
    let gPairs2 :=
      if opt.CorrPerGroup ∧ gkey ≠ "" ∧ 2 ≤ r.2.2.rowNums.length then
        alistSet st.gPairs gkey
          (updatePairs ncol ((alookup st.gPairs gkey).getD []) r.2.2.rowNums)
      else st.gPairs
    { rows := rows2, processed := processed2, samples := samples2, cols := r.1,
      numericVals := r.2.1, pairs := pairs2, groups := groupsB, gPairs := gPairs2 }

/-! ### Header setup and finalization -/

def initCols (header : List String) : List ColAcc :=
  header.map (fun h =>
    let cu := splitUnits (goTrim h)
    { emptyColAcc with name := cu.1, unit := cu.2, origUnit := cu.2 })

def initGbIndex (cols : List ColAcc) : List (String × Nat) :=
  cols.enum.foldl (fun acc p => alistSet acc (goLower p.2.name) p.1) []

/-- The outlier threshold in effect: OutlierThreshold when positive,
3.5 otherwise (lines 442-445). -/
def outThr (opt : Options) : Frac :=
  if 0 < opt.OutlierThreshold then opt.OutlierThreshold else mkFrac 35 10

/-- The robust z magnitude of one value: abs of 0.6745 (v - median)/MAD
over the whole column value list (lines 449-451). -/
def azOf (vals : List Frac) (v : Frac) : Frac :=
  (mkFrac 6745 10000 * (v - (medianMAD vals).1) / (medianMAD vals).2).fabs

/-- Outlier block of the numeric branch (lines 440-463): count of
values with az above the threshold, the running maximum az, and the
threshold; zeros when disabled, fewer than 8 values, or zero MAD (the
threshold is still recorded in the zero-MAD case, as in the source). -/
def outlierStats (opt : Options) (vals : List Frac) : Nat × Frac × Frac :=
  if opt.Outliers = true ∧ 8 ≤ vals.length then
    if 0 < (medianMAD vals).2 then
      let cm := vals.foldl (fun acc v =>
        (if outThr opt < azOf vals v then acc.1 + 1 else acc.1,
         if acc.2 < azOf vals v then azOf vals v else acc.2)) ((0 : Nat), (0 : Frac))
      (cm.1, cm.2, outThr opt)
    else (0, 0, outThr opt)
  else (0, 0, 0)

/-- Finalization of one column (lines 424-490).  The Bool is true when
the column was classified numeric (the source collects those indices
into numCols). -/
def summarizeColumn (opt : Options) (ord : MapOrder) (c : ColAcc) (vals : List Frac) :
    ColumnSummary × Bool :=
  if c.dtCnt ≤ c.numCnt ∧ c.txtCnt ≤ c.numCnt ∧ 0 < c.numCnt then
    (⟨c.name, "numeric", c.unit, c.nonNil, c.miss, 0,
      c.minv.getD 0, c.maxv.getD 0, c.mean,
      (if 1 < c.n then sqrtFrac (c.m2 / ⟨(c.n : Int) - 1, 1⟩) else 0),
      (outlierStats opt vals).1, (outlierStats opt vals).2.1, (outlierStats opt vals).2.2,
      [], []⟩, true)
  else if c.txtCnt ≤ c.dtCnt ∧ 0 < c.dtCnt then
    (⟨c.name, "datetime", c.unit, c.nonNil, c.miss, 0, 0, 0, 0, 0, 0, 0, 0, [], []⟩, false)
  else if c.cats ≠ [] then
    (⟨c.name, "categorical", c.unit, c.nonNil, c.miss, c.cats.length, 0, 0, 0, 0, 0, 0, 0,
      (goSortSlice lessCat ((ord.onCats c.cats).map (fun p => CategoryCount.mk p.1 p.2))).take 8,
      []⟩, false)
  else if 0 < c.txtCnt then
    (⟨c.name, "text", c.unit, c.nonNil, c.miss, 0, 0, 0, 0, 0, 0, 0, 0, [], c.exText⟩, false)
  else
    (⟨c.name, "unknown", c.unit, c.nonNil, c.miss, 0, 0, 0, 0, 0, 0, 0, 0, [], []⟩, false)

def pairDenom (pa : PairAcc) : Frac :=
  sqrtFrac ((pa.n * pa.sumXX - pa.sumX * pa.sumX) * (pa.n * pa.sumYY - pa.sumY * pa.sumY))

def clampR (r : Frac) : Frac :=
  if (1 : Frac) < r then 1 else if r < mkFrac (-1) 1 then mkFrac (-1) 1 else r

/-- The global correlation matrix build (lines 563-603; xlsx.go lines
459-500 are the same computation). -/
def buildCorrMatrix (ncol : Nat) (pairs : List (Nat × PairAcc)) (numCols : List Nat)
    (names : List String) : CorrMatrix :=
  let n := numCols.length
  let mat := (List.range n).map (fun a =>
    (List.range n).map (fun b =>
      if a = b then (1 : Frac)
      else
        let ia := numCols.getD a 0
        let ib := numCols.getD b 0
        let key := max ia ib * ncol + min ia ib
        match nlookup pairs key with
        | none => 0
        | some pa =>
          if pa.n < mkFrac 2 1 then 0
          else
            let denom := pairDenom pa
            let r := if ¬denom.veq 0 then (pa.n * pa.sumXY - pa.sumX * pa.sumY) / denom else 0
            clampR r))
  ⟨names, mat⟩

/-- Per-group result build (lines 499-548). -/
def buildGR (opt : Options) (ord : MapOrder) (ncol : Nat) (cols : List ColAcc)
    (numCols : List Nat) (gPairs : List (String × List (Nat × PairAcc)))
    (k : String) (ga : GAcc) : GroupResult :=
  let metrics := numCols.foldl (fun acc idx =>
    if (nlookup ga.cnt idx).getD 0 = 0 then acc
    else
      alistSet acc (cols.getD idx emptyColAcc).name
        ⟨(nlookup ga.cnt idx).getD 0, (nlookup ga.minv idx).getD 0,
         (nlookup ga.maxv idx).getD 0,
         (nlookup ga.sum idx).getD 0 / ⟨((nlookup ga.cnt idx).getD 0 : Int), 1⟩⟩) []
  let cps :=
    if opt.CorrPerGroup then
      match alookup gPairs k with
      | none => []
      | some gp =>
        let prs := (ord.onPairs gp).foldl (fun acc p =>
          if p.2.n < mkFrac 2 1 then acc
          else
            let denom := pairDenom p.2
            if denom.veq 0 then acc
            else
              acc ++ [⟨(cols.getD (p.1 % ncol) emptyColAcc).name,
                      (cols.getD (p.1 / ncol) emptyColAcc).name,
                      clampR ((p.2.n * p.2.sumXY - p.2.sumX * p.2.sumY) / denom)⟩]) []
        (goSortSlice lessPair prs).take 10
    else []
  ⟨k, ga.size, metrics, cps⟩

def finalizeReport (name : String) (opt : Options) (ord : MapOrder) (ncol : Nat)
    (st : AccState) : Report :=
  let colRes := (st.cols.zip st.numericVals).map (fun p => summarizeColumn opt ord p.1 p.2)
  let numCols := ((colRes.map (fun p => p.2)).enum.filter (fun p => p.2)).map (fun p => p.1)
  let warnings :=
    if st.processed < st.rows then
      ["processed only " ++ Nat.repr st.processed ++ "/" ++ Nat.repr st.rows ++
       " rows due to MaxRows"]
    else []
  let groups :=
    if st.groups ≠ [] then
      let out := (ord.onGroups st.groups).map
        (fun p => buildGR opt ord ncol st.cols numCols st.gPairs p.1 p.2)
      (goSortSlice lessGroup out).take 20
    else []
  let corr :=
    if opt.Correlations ∧ 2 ≤ numCols.length then
      some (buildCorrMatrix ncol st.pairs numCols
        (numCols.map (fun idx => (st.cols.getD idx emptyColAcc).name)))
    else none
  ⟨name, st.rows, st.processed, (colRes.map (fun p => p.1)), st.samples, warnings, groups, corr⟩

def initState (header : List String) : AccState :=
  ⟨0, 0, [], initCols header, List.replicate header.length [], [], [], []⟩

def analyzeCore (name : String) (header : List String) (rows : List (List String))
    (opt : Options) (sampleRows : Int) (ord : MapOrder) : Report :=
  let cols0 := initCols header
  let gbIndex := initGbIndex cols0
  let colNames := cols0.map (fun c => c.name)
  let st := rows.foldl (procRow opt header.length gbIndex colNames sampleRows)
    (initState header)
  finalizeReport name opt ord header.length st

/-- AnalyzeCSV on the decoded record stream: an empty stream (EOF on the
header read) or a zero-column header yields a successful empty Report,
mirroring lines 142-152; the sample-row default treats SampleRows <= 0
as 5 (line 192-195). -/
def AnalyzeCSV (name : String) (records : List (List String)) (opt : Options)
    (ord : MapOrder) : Except String Report :=
  match records with
  | [] => .ok (emptyReport name)
  | header :: rows =>
    if header.length = 0 then .ok (emptyReport name)
    else .ok (analyzeCore name header rows opt
      (if opt.SampleRows ≤ 0 then 5 else opt.SampleRows) ord)

/-- AnalyzeXLSX on the decoded sheet rows: a missing or empty header row
yields a successful empty Report (xlsx.go lines 85-89); the sample-row
default treats only SampleRows < 0 as 5 (lines 124-127). -/
def AnalyzeXLSX (name : String) (rows : List (List String)) (opt : Options)
    (ord : MapOrder) : Except String Report :=
  match rows with
  | [] => .ok (emptyReport name)
  | header :: rest =>
    if header.length = 0 then .ok (emptyReport name)
    else .ok (analyzeCore name header rest opt
      (if opt.SampleRows < 0 then 5 else opt.SampleRows) ord)

/-! ### Claim C3 -/

/-- Counterexample for claim C3 as stated: a zero-column header makes
both analyzers return a successful (empty) Report with a nil error, not
a surfaced error. -/
theorem C3_counterexample :
    AnalyzeCSV "d.csv" [[]] {} idOrder = .ok (emptyReport "d.csv") ∧
    AnalyzeXLSX "d.xlsx" [[]] {} idOrder = .ok (emptyReport "d.xlsx") :=
  ⟨rfl, rfl⟩

/-- Claim C3, amended: on an empty input (no header row at all) or a
zero-column header, both analyzers succeed with an empty Report carrying
only the file name; no error is surfaced.  Errors are reserved for the
unreadable-file / container paths. -/
theorem C3_corrected_theorem (name : String) (opt : Options) (ord : MapOrder)
    (rows : List (List String)) :
    AnalyzeCSV name [] opt ord = .ok (emptyReport name) ∧
    AnalyzeCSV name ([] :: rows) opt ord = .ok (emptyReport name) ∧
    AnalyzeXLSX name [] opt ord = .ok (emptyReport name) ∧
    AnalyzeXLSX name ([] :: rows) opt ord = .ok (emptyReport name) :=
  ⟨rfl, rfl, rfl, rfl⟩

/-! ### Claim C9 -/

theorem resolvedMaxRows_pos (opt : Options) : 0 < resolvedMaxRows opt := by
  unfold resolvedMaxRows
  split <;> omega

theorem procRow_samples_sr0 (opt : Options) (ncol : Nat) (gb : List (String × Nat))
    (cn : List String) (st : AccState) (rec : List String) :
    (procRow opt ncol gb cn 0 st rec).samples = st.samples := by
  unfold procRow
  by_cases hb : resolvedMaxRows opt ≤ (st.processed : Int)
  · rw [if_pos hb]
  · rw [if_neg hb]
    have hc : ¬ ((st.samples.length : Int) < 0) := by omega
    simp [hc]

theorem foldl_samples_sr0 (opt : Options) (ncol : Nat) (gb : List (String × Nat))
    (cn : List String) : ∀ (rows : List (List String)) (st : AccState),
    (rows.foldl (procRow opt ncol gb cn 0) st).samples = st.samples := by
  intro rows
  induction rows with
  | nil => intro st; rfl
  | cons r rest ih =>
    intro st
    simp only [List.foldl_cons]
    rw [ih, procRow_samples_sr0]

theorem procRow_samples_ne (opt : Options) (ncol : Nat) (gb : List (String × Nat))
    (cn : List String) (sr : Int) (st : AccState) (rec : List String)
    (h : st.samples ≠ []) : (procRow opt ncol gb cn sr st rec).samples ≠ [] := by
  unfold procRow
  by_cases hb : resolvedMaxRows opt ≤ (st.processed : Int)
  · rw [if_pos hb]; exact h
  · rw [if_neg hb]
    by_cases hs : (st.samples.length : Int) < sr
    · simp [hs]
    · simp [hs]; exact h

theorem foldl_samples_ne (opt : Options) (ncol : Nat) (gb : List (String × Nat))
    (cn : List String) (sr : Int) : ∀ (rows : List (List String)) (st : AccState),
    st.samples ≠ [] → (rows.foldl (procRow opt ncol gb cn sr) st).samples ≠ [] := by
  intro rows
  induction rows with
  | nil => intro st h; exact h
  | cons r rest ih =>
    intro st h
    simp only [List.foldl_cons]
    exact ih _ (procRow_samples_ne opt ncol gb cn sr st r h)

theorem procRow_seeds_sample (opt : Options) (ncol : Nat) (gb : List (String × Nat))
    (cn : List String) (sr : Int) (st : AccState) (rec : List String)
    (hp : st.processed = 0) (hs : st.samples = []) (hsr : 0 < sr) :
    (procRow opt ncol gb cn sr st rec).samples ≠ [] := by
  unfold procRow
  have hb : ¬ (resolvedMaxRows opt ≤ (st.processed : Int)) := by
    have := resolvedMaxRows_pos opt
    rw [hp]
    push_cast
    omega
  rw [if_neg hb]
  have hcond : (st.samples.length : Int) < sr := by
    rw [hs]
    simpa using hsr
  simp [hs, hsr]

/-- Counterexample for claim C9 as stated: with SampleRows = 0 and one
data row, the CSV path reports one sample row while the spreadsheet path
reports none. -/
theorem C9_counterexample :
    ¬ ((AnalyzeCSV "f" [["a"], ["1"]] { SampleRows := 0 } idOrder).toOption.map
        (fun r => r.Samples.length)
      = (AnalyzeXLSX "f" [["a"], ["1"]] { SampleRows := 0 } idOrder).toOption.map
        (fun r => r.Samples.length)) := by
  decide

/-- Claim C9, amended: the two defaults differ.  The CSV path treats
SampleRows <= 0 as 5, the spreadsheet path only SampleRows < 0; hence
with SampleRows = 0 and at least one data row the CSV report contains at
least one sample row while the spreadsheet report contains none. -/
theorem C9_corrected_theorem (name : String) (opt : Options) (ord : MapOrder)
    (header : List String) (rows : List (List String))
    (h0 : opt.SampleRows = 0) (hh : header.length ≠ 0) (hr : rows ≠ []) :
    (∀ rep, AnalyzeXLSX name (header :: rows) opt ord = .ok rep → rep.Samples = []) ∧
    (∀ rep, AnalyzeCSV name (header :: rows) opt ord = .ok rep → rep.Samples ≠ []) := by
  constructor
  · intro rep hrep
    rw [show AnalyzeXLSX name (header :: rows) opt ord
        = (if header.length = 0 then Except.ok (emptyReport name)
           else Except.ok (analyzeCore name header rows opt
             (if opt.SampleRows < 0 then 5 else opt.SampleRows) ord)) from rfl] at hrep
    rw [if_neg hh] at hrep
    have hsr : (if opt.SampleRows < 0 then (5 : Int) else opt.SampleRows) = 0 := by
      rw [h0]; rfl
    rw [hsr] at hrep
    have : rep = analyzeCore name header rows opt 0 ord := by
      injection hrep with h2
      exact h2.symm
    rw [this]
    show (finalizeReport name opt ord header.length _).Samples = []
    rw [show ∀ (nm : String) (o : Options) (od : MapOrder) (nc : Nat) (st : AccState),
        (finalizeReport nm o od nc st).Samples = st.samples from fun _ _ _ _ _ => rfl]
    exact foldl_samples_sr0 opt header.length _ _ rows (initState header)
  · intro rep hrep
    rw [show AnalyzeCSV name (header :: rows) opt ord
        = (if header.length = 0 then Except.ok (emptyReport name)
           else Except.ok (analyzeCore name header rows opt
             (if opt.SampleRows ≤ 0 then 5 else opt.SampleRows) ord)) from rfl] at hrep
    rw [if_neg hh] at hrep
    have hsr : (if opt.SampleRows ≤ 0 then (5 : Int) else opt.SampleRows) = 5 := by
      rw [h0]; rfl
    rw [hsr] at hrep
    have hrepeq : rep = analyzeCore name header rows opt 5 ord := by
      injection hrep with h2
      exact h2.symm
    rw [hrepeq]
    cases rows with
    | nil => exact absurd rfl hr
    | cons r1 rest =>
      show (finalizeReport name opt ord header.length _).Samples ≠ []
      rw [show ∀ (nm : String) (o : Options) (od : MapOrder) (nc : Nat) (st : AccState),
          (finalizeReport nm o od nc st).Samples = st.samples from fun _ _ _ _ _ => rfl]
      simp only [List.foldl_cons]
      apply foldl_samples_ne
      apply procRow_seeds_sample
      · rfl
      · rfl
      · omega

theorem C9_witness :
    ((AnalyzeXLSX "f" [["a"], ["1"]] { SampleRows := 0 } idOrder).toOption.getD
      (emptyReport "f")).Samples = [] ∧
    ((AnalyzeCSV "f" [["a"], ["1"]] { SampleRows := 0 } idOrder).toOption.getD
      (emptyReport "f")).Samples ≠ [] :=
  ⟨( C9_corrected_theorem "f" { SampleRows := 0 } idOrder ["a"] [["1"]]
      rfl (by decide) (by decide)).1 _ rfl,
   ( C9_corrected_theorem "f" { SampleRows := 0 } idOrder ["a"] [["1"]]
      rfl (by decide) (by decide)).2 _ rfl⟩

/-! ### Claim C5 -/

theorem outlierFold_spec (thr : Frac) (f : Frac → Frac) :
    ∀ (vals : List Frac) (acc : Nat × Frac),
    vals.foldl (fun acc v =>
        (if thr < f v then acc.1 + 1 else acc.1,
         if acc.2 < f v then f v else acc.2)) acc
    = (acc.1 + vals.countP (fun v => decide (thr < f v)),
       vals.foldl (fun m v => if m < f v then f v else m) acc.2) := by
  intro vals
  induction vals with
  | nil => intro acc; simp
  | cons v rest ih =>
    intro acc
    simp only [List.foldl_cons, List.countP_cons]
    rw [ih]
    by_cases hv : thr < f v
    · simp [hv]
      omega
    · simp [hv]

theorem outlierStats_lt8 (opt : Options) (vals : List Frac) (h : vals.length < 8) :
    (outlierStats opt vals).1 = 0 := by
  unfold outlierStats
  have hn : ¬ (opt.Outliers = true ∧ 8 ≤ vals.length) := by
    intro hcon
    omega
  rw [if_neg hn]

theorem outlierStats_mad0 (opt : Options) (vals : List Frac)
    (h : ¬ (0 < (medianMAD vals).2)) : (outlierStats opt vals).1 = 0 := by
  unfold outlierStats
  by_cases h1 : opt.Outliers = true ∧ 8 ≤ vals.length
  · rw [if_pos h1, if_neg h]
  · rw [if_neg h1]

theorem outlierStats_main (opt : Options) (vals : List Frac)
    (hout : opt.Outliers = true) (h8 : 8 ≤ vals.length)
    (hmad : 0 < (medianMAD vals).2) :
    outlierStats opt vals
      = (vals.countP (fun v => decide (outThr opt < azOf vals v)),
         vals.foldl (fun m v => if m < azOf vals v then azOf vals v else m) 0,
         outThr opt) := by
  unfold outlierStats
  have h1 : opt.Outliers = true ∧ 8 ≤ vals.length := ⟨hout, h8⟩
  rw [if_pos h1, if_pos hmad]
  rw [outlierFold_spec (outThr opt) (azOf vals) vals ((0 : Nat), (0 : Frac))]
  simp

theorem summarizeColumn_outlier_fields (opt : Options) (ord : MapOrder) (c : ColAcc)
    (vals : List Frac) (hc : c.dtCnt ≤ c.numCnt ∧ c.txtCnt ≤ c.numCnt ∧ 0 < c.numCnt) :
    (summarizeColumn opt ord c vals).1.OutliersCount = (outlierStats opt vals).1 ∧
    (summarizeColumn opt ord c vals).1.OutliersMaxAbsZ = (outlierStats opt vals).2.1 ∧
    (summarizeColumn opt ord c vals).1.OutlierThreshold = (outlierStats opt vals).2.2 := by
  unfold summarizeColumn
  rw [if_pos hc]
  exact ⟨rfl, rfl, rfl⟩

/-- Claim C5, as stated: for a numeric column with outlier detection
enabled, fewer than 8 values or a zero MAD give outlier count 0;
otherwise the count is the number of values whose robust z magnitude
azOf (that is, abs of 0.6745 (v - median)/MAD) strictly exceeds the
threshold outThr (OutlierThreshold when positive, 3.5 otherwise), and
the summary records that threshold and the maximum az observed. -/
theorem C5_confirmed_theorem (opt : Options) (ord : MapOrder) (c : ColAcc)
    (vals : List Frac) (hout : opt.Outliers = true)
    (hkind : (summarizeColumn opt ord c vals).1.Kind = "numeric") :
    (vals.length < 8 → (summarizeColumn opt ord c vals).1.OutliersCount = 0) ∧
    (¬ (0 < (medianMAD vals).2) → (summarizeColumn opt ord c vals).1.OutliersCount = 0) ∧
    (8 ≤ vals.length → 0 < (medianMAD vals).2 →
      (summarizeColumn opt ord c vals).1.OutliersCount
        = vals.countP (fun v => decide (outThr opt < azOf vals v)) ∧
      (summarizeColumn opt ord c vals).1.OutlierThreshold = outThr opt ∧
      (summarizeColumn opt ord c vals).1.OutliersMaxAbsZ
        = vals.foldl (fun m v => if m < azOf vals v then azOf vals v else m) 0) := by
  have hc : c.dtCnt ≤ c.numCnt ∧ c.txtCnt ≤ c.numCnt ∧ 0 < c.numCnt := by
    by_contra hcon
    unfold summarizeColumn at hkind
    rw [if_neg hcon] at hkind
    split_ifs at hkind <;> simp_all
  obtain ⟨e1, e2, e3⟩ := summarizeColumn_outlier_fields opt ord c vals hc
  refine ⟨?_, ?_, ?_⟩
  · intro hlt
    rw [e1, outlierStats_lt8 opt vals hlt]
  · intro hmad
    rw [e1, outlierStats_mad0 opt vals hmad]
  · intro h8 hmad
    have hm := outlierStats_main opt vals hout h8 hmad
    rw [e1, e2, e3, hm]
    exact ⟨rfl, rfl, rfl⟩

def opt9 : Options := { Outliers := true }

def c9acc : ColAcc := { emptyColAcc with name := "x", nonNil := 9, n := 9, numCnt := 9 }

def vals9 : List Frac :=
  [⟨1, 1⟩, ⟨2, 1⟩, ⟨3, 1⟩, ⟨4, 1⟩, ⟨5, 1⟩, ⟨6, 1⟩, ⟨7, 1⟩, ⟨8, 1⟩, ⟨100, 1⟩]

theorem C5_witness :
    (summarizeColumn opt9 idOrder c9acc vals9).1.OutliersCount
      = vals9.countP (fun v => decide (outThr opt9 < azOf vals9 v)) :=
  ((C5_confirmed_theorem opt9 idOrder c9acc vals9 rfl (by decide)).2.2
    (by decide) (by decide)).1

/-! ### Claim C2 -/

theorem mkFrac_den_pos (n d : Int) : 0 < (mkFrac n d).den := by
  unfold mkFrac
  by_cases hd : d = 0
  · rw [if_pos hd]
    decide
  · rw [if_neg hd]
    apply Nat.div_pos
    · exact Nat.le_of_dvd (Int.natAbs_pos.mpr hd) (Nat.gcd_dvd_right _ _)
    · exact Nat.gcd_pos_of_pos_right _ (Int.natAbs_pos.mpr hd)

theorem div_den_pos (a b : Frac) : 0 < (a / b).den := mkFrac_den_pos _ _

theorem clampR_den_pos (r : Frac) (h : 0 < r.den) : 0 < (clampR r).den := by
  unfold clampR
  by_cases h1 : (1 : Frac) < r
  · rw [if_pos h1]
    decide
  · rw [if_neg h1]
    by_cases h2 : r < mkFrac (-1) 1
    · rw [if_pos h2]
      exact mkFrac_den_pos _ _
    · rw [if_neg h2]
      exact h

theorem clampR_bounds (r : Frac) : mkFrac (-1) 1 ≤ clampR r ∧ clampR r ≤ (1 : Frac) := by
  have hm : mkFrac (-1) 1 = (⟨-1, 1⟩ : Frac) := by decide
  unfold clampR
  rw [hm] at *
  by_cases h1 : (1 : Frac) < r
  · rw [if_pos h1]
    exact ⟨by decide, by decide⟩
  · rw [if_neg h1]
    by_cases h2 : r < (⟨-1, 1⟩ : Frac)
    · rw [if_pos h2]
      exact ⟨by decide, by decide⟩
    · rw [if_neg h2]
      constructor
      · show (-1 : Int) * (r.den : Int) ≤ r.num * (1 : Nat)
        have h2x : ¬ (r.num * ((1 : Nat) : Int) < (-1) * (r.den : Int)) := h2
        omega
      · show r.num * ((1 : Nat) : Int) ≤ 1 * (r.den : Int)
        have h1x : ¬ ((1 : Int) * (r.den : Int) < r.num * ((1 : Nat) : Int)) := h1
        omega

theorem Frac.le_toRat {a b : Frac} (ha : 0 < a.den) (hb : 0 < b.den) (h : a ≤ b) :
    a.toRat ≤ b.toRat := by
  unfold Frac.toRat
  rw [div_le_div_iff (by exact_mod_cast ha) (by exact_mod_cast hb)]
  exact_mod_cast h

theorem toRat_one : ((1 : Frac)).toRat = 1 := by
  have h1 : Frac.num 1 = 1 := rfl
  have h2 : Frac.den 1 = 1 := rfl
  unfold Frac.toRat
  rw [h1, h2]
  norm_num

theorem toRat_negone : (mkFrac (-1) 1).toRat = -1 := by
  have hm : mkFrac (-1) 1 = (⟨-1, 1⟩ : Frac) := by decide
  rw [hm]
  norm_num [Frac.toRat]

/-- Frac values in [-1, 1] (as rationals). -/
def inUnitInterval (x : Frac) : Prop := (-1 : ℚ) ≤ x.toRat ∧ x.toRat ≤ 1

theorem clampR_inUnit (r : Frac) (h : 0 < r.den) : inUnitInterval (clampR r) := by
  have hb := clampR_bounds r
  have hd := clampR_den_pos r h
  constructor
  · have := Frac.le_toRat (a := mkFrac (-1) 1) (by decide) hd hb.1
    rwa [toRat_negone] at this
  · have := Frac.le_toRat hd (b := (1 : Frac)) (by decide) hb.2
    rwa [toRat_one] at this

theorem toRat_zero : ((0 : Frac)).toRat = 0 := by
  have h1 : Frac.num 0 = 0 := rfl
  have h2 : Frac.den 0 = 1 := rfl
  unfold Frac.toRat
  rw [h1, h2]
  norm_num

theorem zeroFrac_inUnit : inUnitInterval (0 : Frac) := by
  constructor <;> rw [toRat_zero] <;> norm_num

theorem oneFrac_inUnit : inUnitInterval (1 : Frac) := by
  constructor <;> rw [toRat_one] <;> norm_num

theorem getD_map_range {α : Type} (n i : Nat) (f : Nat → α) (d : α) (h : i < n) :
    ((List.range n).map f).getD i d = f i := by
  simp [List.getD_eq_getElem?_getD, List.getElem?_map, List.getElem?_range, h]

/-- Well-formedness of a correlation matrix per claim C2: square over
the column names, symmetric, unit diagonal, all entries within [-1, 1]
when read as rationals. -/
def corrMatrixWellFormed (M : CorrMatrix) : Prop :=
  M.Values.length = M.Columns.length ∧
  (∀ row ∈ M.Values, row.length = M.Columns.length) ∧
  (∀ i j, i < M.Columns.length → j < M.Columns.length →
    (M.Values.getD i []).getD j 0 = (M.Values.getD j []).getD i 0) ∧
  (∀ i, i < M.Columns.length → (M.Values.getD i []).getD i 0 = (1 : Frac)) ∧
  (∀ i j, i < M.Columns.length → j < M.Columns.length →
    inUnitInterval ((M.Values.getD i []).getD j 0))

/-- One entry of the matrix build, named for the proofs below. -/
def corrEntry (ncol : Nat) (pairs : List (Nat × PairAcc)) (numCols : List Nat)
    (a b : Nat) : Frac :=
  if a = b then (1 : Frac)
  else
    match nlookup pairs (max (numCols.getD a 0) (numCols.getD b 0) * ncol
        + min (numCols.getD a 0) (numCols.getD b 0)) with
    | none => 0
    | some pa =>
      if pa.n < mkFrac 2 1 then 0
      else clampR (if ¬ (pairDenom pa).veq 0
        then (pa.n * pa.sumXY - pa.sumX * pa.sumY) / pairDenom pa else 0)

theorem buildCorrMatrix_entry (ncol : Nat) (pairs : List (Nat × PairAcc))
    (numCols : List Nat) (names : List String) :
    buildCorrMatrix ncol pairs numCols names
      = ⟨names, (List.range numCols.length).map (fun a =>
          (List.range numCols.length).map (fun b => corrEntry ncol pairs numCols a b))⟩ := rfl

theorem corrEntry_symm (ncol : Nat) (pairs : List (Nat × PairAcc)) (numCols : List Nat)
    (a b : Nat) : corrEntry ncol pairs numCols a b = corrEntry ncol pairs numCols b a := by
  unfold corrEntry
  by_cases hab : a = b
  · rw [if_pos hab, if_pos hab.symm]
  · rw [if_neg hab, if_neg (fun h => hab h.symm)]
    rw [Nat.max_comm, Nat.min_comm]

theorem corrEntry_inUnit (ncol : Nat) (pairs : List (Nat × PairAcc)) (numCols : List Nat)
    (a b : Nat) : inUnitInterval (corrEntry ncol pairs numCols a b) := by
  unfold corrEntry
  by_cases hab : a = b
  · rw [if_pos hab]
    exact oneFrac_inUnit
  · rw [if_neg hab]
    cases hl : nlookup pairs (max (numCols.getD a 0) (numCols.getD b 0) * ncol +
        min (numCols.getD a 0) (numCols.getD b 0)) with
    | none => exact zeroFrac_inUnit
    | some pa =>
      show inUnitInterval (if pa.n < mkFrac 2 1 then 0
        else clampR (if ¬ (pairDenom pa).veq 0
          then (pa.n * pa.sumXY - pa.sumX * pa.sumY) / pairDenom pa else 0))
      by_cases hn : pa.n < mkFrac 2 1
      · rw [if_pos hn]
        exact zeroFrac_inUnit
      · rw [if_neg hn]
        apply clampR_inUnit
        by_cases hd : ¬ (pairDenom pa).veq 0
        · rw [if_pos hd]
          exact div_den_pos _ _
        · rw [if_neg hd]
          decide

theorem buildCorrMatrix_wellFormed (ncol : Nat) (pairs : List (Nat × PairAcc))
    (numCols : List Nat) (names : List String) (hlen : names.length = numCols.length) :
    corrMatrixWellFormed (buildCorrMatrix ncol pairs numCols names) := by
  rw [buildCorrMatrix_entry]
  unfold corrMatrixWellFormed
  refine ⟨by simp [hlen], ?_, ?_, ?_, ?_⟩
  · intro row hrow
    rcases List.mem_map.mp hrow with ⟨a, _, rfl⟩
    simp [hlen]
  · intro i j hi hj
    rw [hlen] at hi hj
    rw [getD_map_range _ _ _ _ hi, getD_map_range _ _ _ _ hj,
      getD_map_range _ _ _ _ hj, getD_map_range _ _ _ _ hi]
    exact corrEntry_symm ncol pairs numCols i j
  · intro i hi
    rw [hlen] at hi
    rw [getD_map_range _ _ _ _ hi, getD_map_range _ _ _ _ hi]
    unfold corrEntry
    rw [if_pos rfl]
  · intro i j hi hj
    rw [hlen] at hi hj
    rw [getD_map_range _ _ _ _ hi, getD_map_range _ _ _ _ hj]
    exact corrEntry_inUnit ncol pairs numCols i j

theorem finalize_corr_eq (name : String) (opt : Options) (ord : MapOrder) (ncol : Nat)
    (st : AccState) (M : CorrMatrix)
    (h : (finalizeReport name opt ord ncol st).Corr = some M) :
    ∃ numCols names pairs, M = buildCorrMatrix ncol pairs numCols names ∧
      names.length = numCols.length := by
  have hcorr : (finalizeReport name opt ord ncol st).Corr
      = (if opt.Correlations = true ∧
            2 ≤ (((((st.cols.zip st.numericVals).map
              (fun p => summarizeColumn opt ord p.1 p.2)).map (fun p => p.2)).enum.filter
              (fun p => p.2)).map (fun p => p.1)).length
         then some (buildCorrMatrix ncol st.pairs
            (((((st.cols.zip st.numericVals).map
              (fun p => summarizeColumn opt ord p.1 p.2)).map (fun p => p.2)).enum.filter
              (fun p => p.2)).map (fun p => p.1))
            ((((((st.cols.zip st.numericVals).map
              (fun p => summarizeColumn opt ord p.1 p.2)).map (fun p => p.2)).enum.filter
              (fun p => p.2)).map (fun p => p.1)).map
              (fun idx => (st.cols.getD idx emptyColAcc).name)))
         else none) := rfl
  rw [hcorr] at h
  split_ifs at h with hcond
  injection h with h2
  refine ⟨_, _, st.pairs, h2.symm, ?_⟩
  rw [List.length_map]

theorem analyzeCore_eq (name : String) (header : List String) (rows : List (List String))
    (opt : Options) (sr : Int) (ord : MapOrder) :
    analyzeCore name header rows opt sr ord
      = finalizeReport name opt ord header.length
          (rows.foldl (procRow opt header.length (initGbIndex (initCols header))
            ((initCols header).map (fun c => c.name)) sr) (initState header)) := rfl

/-- Claim C2: whenever a Report produced by either analyzer carries a
global correlation matrix, that matrix is square over the numeric column
names, symmetric, has unit diagonal, and every entry lies in [-1, 1]
(degenerate-variance entries having been replaced by 0 before clamping). -/
theorem C2_confirmed_theorem (nameC : String) (recs : List (List String)) (optC : Options)
    (ordC : MapOrder) (nameX : String) (rowsX : List (List String)) (optX : Options)
    (ordX : MapOrder) (M : CorrMatrix)
    (h : (∃ rep, AnalyzeCSV nameC recs optC ordC = .ok rep ∧ rep.Corr = some M) ∨
         (∃ rep, AnalyzeXLSX nameX rowsX optX ordX = .ok rep ∧ rep.Corr = some M)) :
    corrMatrixWellFormed M := by
  have hfin : ∀ (name : String) (opt : Options) (ord : MapOrder) (ncol : Nat) (st : AccState),
      (finalizeReport name opt ord ncol st).Corr = some M → corrMatrixWellFormed M := by
    intro name opt ord ncol st hc
    obtain ⟨nc, nm, pr, hMeq, hlen⟩ := finalize_corr_eq name opt ord ncol st M hc
    rw [hMeq]
    exact buildCorrMatrix_wellFormed _ _ _ _ hlen
  have hcore : ∀ (name : String) (header : List String) (rows : List (List String))
      (opt : Options) (sr : Int) (ord : MapOrder),
      (analyzeCore name header rows opt sr ord).Corr = some M → corrMatrixWellFormed M := by
    intro name header rows opt sr ord hc
    rw [analyzeCore_eq] at hc
    exact hfin _ _ _ _ _ hc
  rcases h with ⟨rep, hok, hc⟩ | ⟨rep, hok, hc⟩
  · cases recs with
    | nil =>
      injection hok with he
      rw [← he] at hc
      simp [emptyReport] at hc
    | cons header rows =>
      rw [show AnalyzeCSV nameC (header :: rows) optC ordC
          = (if header.length = 0 then Except.ok (emptyReport nameC)
             else Except.ok (analyzeCore nameC header rows optC
               (if optC.SampleRows ≤ 0 then 5 else optC.SampleRows) ordC)) from rfl] at hok
      by_cases hh : header.length = 0
      · rw [if_pos hh] at hok
        injection hok with he
        rw [← he] at hc
        simp [emptyReport] at hc
      · rw [if_neg hh] at hok
        injection hok with he
        rw [← he] at hc
        exact hcore _ _ _ _ _ _ hc
  · cases rowsX with
    | nil =>
      injection hok with he
      rw [← he] at hc
      simp [emptyReport] at hc
    | cons header rows =>
      rw [show AnalyzeXLSX nameX (header :: rows) optX ordX
          = (if header.length = 0 then Except.ok (emptyReport nameX)
             else Except.ok (analyzeCore nameX header rows optX
               (if optX.SampleRows < 0 then 5 else optX.SampleRows) ordX)) from rfl] at hok
      by_cases hh : header.length = 0
      · rw [if_pos hh] at hok
        injection hok with he
        rw [← he] at hc
        simp [emptyReport] at hc
      · rw [if_neg hh] at hok
        injection hok with he
        rw [← he] at hc
        exact hcore _ _ _ _ _ _ hc

def corrDemo : CorrMatrix := ⟨["a", "b"], [[⟨1, 1⟩, ⟨1, 1⟩], [⟨1, 1⟩, ⟨1, 1⟩]]⟩

set_option maxRecDepth 10000 in
theorem C2_witness : corrMatrixWellFormed corrDemo :=
  C2_confirmed_theorem "f" [["a", "b"], ["1", "2"], ["2", "4"]] { Correlations := true }
    idOrder "x" [] {} idOrder corrDemo (Or.inl ⟨_, rfl, by decide⟩)

/-! ### The Markdown renderer (table.go lines 704-888)

fmt verbs are modeled on the exact rational value of a Frac: %.Nf rounds
half to even at N decimals, %.4g keeps four significant digits and picks
fixed or scientific form by the decimal exponent as fmt does.  Widths
and separators mirror the Sprintf strings byte for byte. -/

def concatAll (l : List String) : String := l.foldl (fun a s => a ++ s) ""

/-- Round half to even of a / d (d positive in every use). -/
def rhe (a d : Nat) : Nat :=
  let q := a / d
  let r := a % d
  if d < 2 * r then q + 1
  else if 2 * r < d then q
  else if q % 2 = 0 then q else q + 1

def padLeftZeros (k : Nat) (s : String) : String :=
  String.mk (List.replicate (k - s.data.length) '0') ++ s

/-- fmt %.Nf on the exact rational value. -/
def fmtFixed (prec : Nat) (x : Frac) : String :=
  let m := rhe (x.num.natAbs * 10 ^ prec) x.den
  let sign := if x.num < 0 then "-" else ""
  if prec = 0 then sign ++ natToStr m
  else sign ++ natToStr (m / 10 ^ prec) ++ "." ++ padLeftZeros prec (natToStr (m % 10 ^ prec))

def intDigits (n : Nat) : Nat := (natDigits n).length

def scaledRound (a d : Nat) (s : Int) : Nat :=
  if 0 ≤ s then rhe (a * 10 ^ s.toNat) d else rhe a (d * 10 ^ (-s).toNat)

/-- The four significant digits 1000..9999 and the decimal exponent of
a / d (both positive). -/
def g4pick (a d : Nat) : Nat × Int :=
  let e0 : Int := (intDigits a : Int) - (intDigits d : Int)
  let m1 := scaledRound a d (3 - (e0 - 1))
  if 1000 ≤ m1 ∧ m1 ≤ 9999 then (m1, e0 - 1)
  else
    let m2 := scaledRound a d (3 - e0)
    if 1000 ≤ m2 ∧ m2 ≤ 9999 then (m2, e0)
    else
      let m3 := scaledRound a d (3 - (e0 + 1))
      if 1000 ≤ m3 ∧ m3 ≤ 9999 then (m3, e0 + 1)
      else (1000, e0 + 2)

def stripTrailingZeros (s : String) : String :=
  String.mk ((s.data.reverse.dropWhile (fun c => c = '0')).reverse)

/-- fmt %.4g on the exact rational value. -/
def fmtG4 (x : Frac) : String :=
  if x.num = 0 then "0"
  else
    let me := g4pick x.num.natAbs x.den
    let ds := natToStr me.1
    let e := me.2
    let sign := if x.num < 0 then "-" else ""
    if -4 ≤ e ∧ e < 4 then
      if 0 ≤ e then
        let k := e.toNat + 1
        let fp := stripTrailingZeros (String.mk (ds.data.drop k))
        sign ++ String.mk (ds.data.take k) ++ (if fp = "" then "" else "." ++ fp)
      else
        sign ++ "0." ++ String.mk (List.replicate ((-e).toNat - 1) '0')
          ++ stripTrailingZeros ds
    else
      let rest := stripTrailingZeros (String.mk (ds.data.drop 1))
      let es := natToStr e.natAbs
      sign ++ String.mk (ds.data.take 1) ++ (if rest = "" then "" else "." ++ rest)
        ++ "e" ++ (if 0 ≤ e then "+" else "-") ++ (if e.natAbs < 10 then "0" ++ es else es)

/-- sort.Strings, ascending. -/
def sortStrings (l : List String) : List String := goSortSlice (fun a b => strLt a b) l

/-- Whole characters fitting in the first n bytes (the byte slice
val[:77]; a reference that would split a character keeps it out). -/
def takeBytes : Nat → List Char → List Char
  | _, [] => []
  | n, c :: cs => if charBytes c ≤ n then c :: takeBytes (n - charBytes c) cs else []

def goCell80 (s : String) : String :=
  if 80 < byteLen s then String.mk (takeBytes 77 s.data) ++ "..." else s

def secDataset (r : Report) : String :=
  "[DATASET SUMMARY]\n"
  ++ (if r.Name ≠ "" then "File: " ++ r.Name ++ "\n" else "")
  ++ (if 0 < r.Rows then
        if 0 < r.Processed ∧ r.Processed < r.Rows then
          "Rows: ~" ++ natToStr r.Rows ++ " (processed " ++ natToStr r.Processed ++ ")\n"
        else "Rows: " ++ natToStr r.Rows ++ "\n"
      else "")
  ++ "Columns: " ++ natToStr r.Cols.length ++ "\n\n"

def schemaLine (c : ColumnSummary) : String :=
  let total := c.NonNull + c.Missing
  let missPct : Frac :=
    if 0 < total then
      Frac.ofInt (Int.ofNat c.Missing) * ⟨100, 1⟩ / Frac.ofInt (Int.ofNat total)
    else 0
  let nm0 := safeName c.Name
  let nm := if c.Unit ≠ "" then nm0 ++ " [" ++ c.Unit ++ "]" else nm0
  "- " ++ nm ++ ": " ++ c.Kind ++ " (non-null " ++ natToStr c.NonNull ++ ", missing "
    ++ fmtFixed 1 missPct ++ "%)"
  ++ (if c.Kind = "numeric" then
        " — min " ++ fmtG4 c.Min ++ ", max " ++ fmtG4 c.Max ++ ", mean " ++ fmtG4 c.Mean
          ++ ", std " ++ fmtG4 c.Std
        ++ (if 0 < c.OutlierThreshold then
              "; outliers: " ++ natToStr c.OutliersCount ++ " above |z|>"
                ++ fmtFixed 1 c.OutlierThreshold
              ++ (if 0 < c.OutliersMaxAbsZ then
                    " (max |z|≈" ++ fmtFixed 2 c.OutliersMaxAbsZ ++ ")"
                  else "")
            else "")
      else if c.Kind = "categorical" then
        (if c.TopValues ≠ [] then
          " — top: " ++ joinSep ", " (c.TopValues.map (fun kv =>
              safeVal kv.Value ++ "(" ++ natToStr kv.Count ++ ")"))
          ++ (if c.TopValues.length < c.Unique then "; unique=" ++ natToStr c.Unique else "")
        else "")
      else if c.Kind = "text" then
        (if c.ExampleTexts ≠ [] then " — e.g., " ++ joinSep " | " (c.ExampleTexts.map safeVal)
         else "")
      else "")
  ++ "\n"

def secSchema (r : Report) : String :=
  "[SCHEMA]\n" ++ concatAll (r.Cols.map schemaLine)

def metricLine (k : String) (m : NumSummary) : String :=
  "  • " ++ k ++ ": mean " ++ fmtG4 m.Mean ++ " (min " ++ fmtG4 m.Min ++ ", max "
    ++ fmtG4 m.Max ++ ")\n"

def groupBlock (ord : MapOrder) (g : GroupResult) : String :=
  "- " ++ g.Key ++ " (n=" ++ natToStr g.Size ++ ")\n"
  ++ concatAll (((sortStrings (ord.onKeys (g.Metrics.map (fun p => p.1)))).take 6).map
      (fun k => metricLine k ((alookup g.Metrics k).getD ⟨0, 0, 0, 0⟩)))

def secGroups (ord : MapOrder) (r : Report) : String :=
  if r.Groups ≠ [] then
    "\n[GROUP-BY SUMMARY]\n" ++ concatAll (r.Groups.map (groupBlock ord))
  else ""

def pairLine (p : PairCorr) : String :=
  "  • " ++ p.A ++ " ~ " ++ p.B ++ ": r=" ++ fmtFixed 3 p.R ++ "\n"

def gcorrBlock (g : GroupResult) : String :=
  if g.CorrPairs = [] then ""
  else
    "- " ++ g.Key ++ ":\n"
    ++ concatAll ((g.CorrPairs.take
        (if g.CorrPairs.length < 8 then g.CorrPairs.length else 8)).map pairLine)

def secGCorr (r : Report) : String :=
  if r.Groups.any (fun g => !g.CorrPairs.isEmpty) then
    "\n[PER-GROUP CORRELATIONS]\n" ++ concatAll (r.Groups.map gcorrBlock)
  else ""

def corrPairList (cm : CorrMatrix) : List PairCorr :=
  (ordPairs cm.Columns.enum).map (fun pq =>
    ⟨pq.1.2, pq.2.2, ((cm.Values.getD pq.1.1 []).getD pq.2.1 0)⟩)

def secCorr (r : Report) : String :=
  match r.Corr with
  | none => ""
  | some cm =>
    if 2 ≤ cm.Columns.length then
      let pairs := goSortSlice lessPair (corrPairList cm)
      "\n[CORRELATIONS]\n"
      ++ concatAll ((pairs.take (if pairs.length < 10 then pairs.length else 10)).map
          (fun p => "- " ++ p.A ++ " ~ " ++ p.B ++ ": r=" ++ fmtFixed 3 p.R ++ "\n"))
    else ""

def sampleRow (cols : List ColumnSummary) (row : List String) : String :=
  "| " ++ joinSep " | " (cols.enum.map (fun p => safeVal (goCell80 (row.getD p.1 ""))))
    ++ " |\n"

def secSamples (r : Report) : String :=
  if r.Samples ≠ [] then
    "\n[HEAD AND SAMPLE ROWS]\n"
    ++ "| " ++ joinSep " | " (r.Cols.map (fun c => safeName c.Name)) ++ " |\n"
    ++ "| " ++ joinSep " | " (r.Cols.map (fun _ => "---")) ++ " |\n"
    ++ concatAll (r.Samples.map (sampleRow r.Cols))
  else ""

def secNotes (r : Report) : String :=
  if r.Warnings ≠ [] then
    "\n[NOTES]\n" ++ concatAll (r.Warnings.map (fun w => "- " ++ w ++ "\n"))
  else ""

/-- Report.Markdown: the section order of the source, with the map
iterations (metric keys) drawn through the oracle. -/
def Report.Markdown (ord : MapOrder) (r : Report) : String :=
  secDataset r ++ secSchema r ++ secGroups ord r ++ secGCorr r ++ secCorr r
    ++ secSamples r ++ secNotes r

/-! ### Claim C1 -/

/-- Total size over a group accumulator map. -/
def gsum (groups : List (String × GAcc)) : Nat := (groups.map (fun p => p.2.size)).sum

/-- Total Size over the rendered group results. -/
def grsum (grs : List GroupResult) : Nat := (grs.map (fun g => g.Size)).sum

theorem gsum_cons (p : String × GAcc) (gs : List (String × GAcc)) :
    gsum (p :: gs) = p.2.size + gsum gs := rfl

theorem grsum_cons (g : GroupResult) (gs : List GroupResult) :
    grsum (g :: gs) = g.Size + grsum gs := rfl

theorem gsum_cons2 (k : String) (v : GAcc) (gs : List (String × GAcc)) :
    gsum ((k, v) :: gs) = v.size + gsum gs := rfl

theorem gsum_alistSet_none : ∀ (groups : List (String × GAcc)) (k : String) (ga : GAcc),
    alookup groups k = none → gsum (alistSet groups k ga) = gsum groups + ga.size := by
  intro groups
  induction groups with
  | nil =>
    intro k ga _
    show gsum [(k, ga)] = gsum [] + ga.size
    rw [gsum_cons2]
    show ga.size + 0 = 0 + ga.size
    omega
  | cons p rest ih =>
    obtain ⟨k0, v0⟩ := p
    intro k ga hl
    unfold alookup at hl
    unfold alistSet
    by_cases hk : k0 = k
    · rw [if_pos hk] at hl
      exact absurd hl (by simp)
    · rw [if_neg hk] at hl
      rw [if_neg hk, gsum_cons2, gsum_cons2, ih k ga hl]
      omega

theorem gsum_alistSet_some : ∀ (groups : List (String × GAcc)) (k : String) (ga ga0 : GAcc),
    alookup groups k = some ga0 →
    gsum (alistSet groups k ga) + ga0.size = gsum groups + ga.size := by
  intro groups
  induction groups with
  | nil =>
    intro k ga ga0 hl
    exact absurd hl (by simp [alookup])
  | cons p rest ih =>
    obtain ⟨k0, v0⟩ := p
    intro k ga ga0 hl
    unfold alookup at hl
    unfold alistSet
    by_cases hk : k0 = k
    · rw [if_pos hk] at hl
      injection hl with h0
      rw [if_pos hk, gsum_cons2, gsum_cons2, h0]
      omega
    · rw [if_neg hk] at hl
      rw [if_neg hk, gsum_cons2, gsum_cons2]
      have := ih k ga ga0 hl
      omega

theorem gsum_groupsAddNum (groups : List (String × GAcc)) (k : String) (j : Nat) (x : Frac) :
    gsum (groupsAddNum groups k j x) = gsum groups := by
  unfold groupsAddNum
  cases hl : alookup groups k with
  | none =>
    show gsum (alistSet groups k (gAccAddNum GAcc.empty j x)) = gsum groups
    have h := gsum_alistSet_none groups k (gAccAddNum GAcc.empty j x) hl
    have hs : (gAccAddNum GAcc.empty j x).size = 0 := rfl
    omega
  | some ga =>
    show gsum (alistSet groups k (gAccAddNum ga j x)) = gsum groups
    have h := gsum_alistSet_some groups k (gAccAddNum ga j x) ga hl
    have hs : (gAccAddNum ga j x).size = ga.size := rfl
    omega

theorem gsum_groupsBumpSize (groups : List (String × GAcc)) (k : String) :
    gsum (groupsBumpSize groups k) = gsum groups + 1 := by
  unfold groupsBumpSize
  cases hl : alookup groups k with
  | none =>
    show gsum (alistSet groups k { GAcc.empty with size := 1 }) = gsum groups + 1
    have h := gsum_alistSet_none groups k { GAcc.empty with size := 1 } hl
    have hs : ({ GAcc.empty with size := 1 } : GAcc).size = 1 := rfl
    omega
  | some ga =>
    show gsum (alistSet groups k { ga with size := ga.size + 1 }) = gsum groups + 1
    have h := gsum_alistSet_some groups k { ga with size := ga.size + 1 } ga hl
    have hs : ({ ga with size := ga.size + 1 } : GAcc).size = ga.size + 1 := rfl
    omega

/-- Each non-skipped cell bumps exactly one of nonNil and miss. -/
theorem cellStep_count (opt : Options) (gkey : String) (j : Nat) (ca : ColAcc)
    (nv : List Frac) (cell : String) (ctx : RowCtx) :
    (cellStep opt gkey j ca nv cell ctx).1.nonNil
      + (cellStep opt gkey j ca nv cell ctx).1.miss = ca.nonNil + ca.miss + 1 := by
  unfold cellStep
  by_cases hv : goTrim cell = ""
  · rw [if_pos hv]
    show ca.nonNil + (ca.miss + 1) = ca.nonNil + ca.miss + 1
    omega
  · rw [if_neg hv]
    dsimp only
    split
    · split_ifs <;> (show ca.nonNil + 1 + ca.miss = ca.nonNil + ca.miss + 1; omega)
    · split_ifs <;> (show ca.nonNil + 1 + ca.miss = ca.nonNil + ca.miss + 1; omega)

/-- Cell processing never changes any group size. -/
theorem cellStep_gsum (opt : Options) (gkey : String) (j : Nat) (ca : ColAcc)
    (nv : List Frac) (cell : String) (ctx : RowCtx) :
    gsum (cellStep opt gkey j ca nv cell ctx).2.2.groups = gsum ctx.groups := by
  unfold cellStep
  by_cases hv : goTrim cell = ""
  · rw [if_pos hv]
  · rw [if_neg hv]
    dsimp only
    split
    · split_ifs <;>
        first
          | rfl
          | exact gsum_groupsAddNum ctx.groups gkey j _
    · split_ifs <;> rfl

theorem colsLoop_count (opt : Options) (gkey : String) :
    ∀ (cas : List ColAcc) (j : Nat) (nvs : List (List Frac)) (cells : List String)
      (ctx : RowCtx) (p : Nat),
    (∀ ca ∈ cas, ca.nonNil + ca.miss = p) →
    ∀ ca2 ∈ (colsLoop opt gkey j cas nvs cells ctx).1, ca2.nonNil + ca2.miss = p + 1 := by
  intro cas
  induction cas with
  | nil =>
    intro j nvs cells ctx p _ ca2 hmem
    simp only [colsLoop] at hmem
    exact absurd hmem (List.not_mem_nil ca2)
  | cons ca rest ih =>
    intro j nvs cells ctx p h ca2 hmem
    simp only [colsLoop] at hmem
    rcases List.mem_cons.mp hmem with heq | hmem2
    · rw [heq, cellStep_count]
      have := h ca (List.mem_cons_self ca rest)
      omega
    · exact ih (j + 1) nvs.tail cells.tail _ p
        (fun c hc => h c (List.mem_cons_of_mem ca hc)) ca2 hmem2

theorem colsLoop_gsum (opt : Options) (gkey : String) :
    ∀ (cas : List ColAcc) (j : Nat) (nvs : List (List Frac)) (cells : List String)
      (ctx : RowCtx),
    gsum (colsLoop opt gkey j cas nvs cells ctx).2.2.groups = gsum ctx.groups := by
  intro cas
  induction cas with
  | nil => intro j nvs cells ctx; rfl
  | cons ca rest ih =>
    intro j nvs cells ctx
    simp only [colsLoop]
    rw [ih, cellStep_gsum]

/-- One processed row keeps the per-column and group-size conservation. -/
theorem procRow_inv (opt : Options) (ncol : Nat) (gb : List (String × Nat))
    (cn : List String) (sr : Int) (st : AccState) (rec : List String)
    (hcols : ∀ ca ∈ st.cols, ca.nonNil + ca.miss = st.processed)
    (hg : gsum st.groups ≤ st.processed) :
    (∀ ca ∈ (procRow opt ncol gb cn sr st rec).cols,
       ca.nonNil + ca.miss = (procRow opt ncol gb cn sr st rec).processed) ∧
    gsum (procRow opt ncol gb cn sr st rec).groups
      ≤ (procRow opt ncol gb cn sr st rec).processed := by
  unfold procRow
  by_cases hb : resolvedMaxRows opt ≤ (st.processed : Int)
  · rw [if_pos hb]
    exact ⟨hcols, hg⟩
  · rw [if_neg hb]
    dsimp only
    constructor
    · intro ca hca
      exact colsLoop_count opt _ st.cols 0 st.numericVals _ ⟨[], st.groups⟩
        st.processed hcols ca hca
    · have hR := colsLoop_gsum opt
        (groupKey opt gb cn (rec ++ List.replicate (ncol - rec.length) ""))
        st.cols 0 st.numericVals (rec ++ List.replicate (ncol - rec.length) "")
        ⟨[], st.groups⟩
      have hR0 : gsum ((⟨[], st.groups⟩ : RowCtx)).groups = gsum st.groups := rfl
      by_cases hk : groupKey opt gb cn (rec ++ List.replicate (ncol - rec.length) "") ≠ ""
      · rw [if_pos hk, gsum_groupsBumpSize, hR]
        omega
      · rw [if_neg hk, hR]
        omega

theorem foldl_inv (opt : Options) (ncol : Nat) (gb : List (String × Nat))
    (cn : List String) (sr : Int) :
    ∀ (rows : List (List String)) (st : AccState),
    (∀ ca ∈ st.cols, ca.nonNil + ca.miss = st.processed) →
    gsum st.groups ≤ st.processed →
    (∀ ca ∈ (rows.foldl (procRow opt ncol gb cn sr) st).cols,
       ca.nonNil + ca.miss = (rows.foldl (procRow opt ncol gb cn sr) st).processed) ∧
    gsum (rows.foldl (procRow opt ncol gb cn sr) st).groups
      ≤ (rows.foldl (procRow opt ncol gb cn sr) st).processed := by
  intro rows
  induction rows with
  | nil => intro st h1 h2; exact ⟨h1, h2⟩
  | cons r rest ih =>
    intro st h1 h2
    simp only [List.foldl_cons]
    have hp := procRow_inv opt ncol gb cn sr st r h1 h2
    exact ih _ hp.1 hp.2

theorem initState_cols (header : List String) :
    ∀ ca ∈ (initState header).cols, ca.nonNil + ca.miss = (initState header).processed := by
  intro ca hca
  rcases List.mem_map.mp hca with ⟨h, _, rfl⟩
  rfl

theorem summarizeColumn_counts (opt : Options) (ord : MapOrder) (c : ColAcc)
    (vals : List Frac) :
    (summarizeColumn opt ord c vals).1.NonNull = c.nonNil ∧
    (summarizeColumn opt ord c vals).1.Missing = c.miss := by
  unfold summarizeColumn
  split_ifs <;> exact ⟨rfl, rfl⟩

theorem finalizeReport_processed (name : String) (opt : Options) (ord : MapOrder)
    (ncol : Nat) (st : AccState) :
    (finalizeReport name opt ord ncol st).Processed = st.processed := rfl

theorem finalizeReport_cols_counts (name : String) (opt : Options) (ord : MapOrder)
    (ncol : Nat) (st : AccState)
    (h : ∀ ca ∈ st.cols, ca.nonNil + ca.miss = st.processed) :
    ∀ cs ∈ (finalizeReport name opt ord ncol st).Cols,
      cs.NonNull + cs.Missing = st.processed := by
  intro cs hcs
  have hcs2 : cs ∈ ((st.cols.zip st.numericVals).map
      (fun p => summarizeColumn opt ord p.1 p.2)).map (fun p => p.1) := hcs
  rcases List.mem_map.mp hcs2 with ⟨pr, hpr, rfl⟩
  rcases List.mem_map.mp hpr with ⟨q, hq, rfl⟩
  obtain ⟨h1, h2⟩ := summarizeColumn_counts opt ord q.1 q.2
  rw [h1, h2]
  obtain ⟨ca, vals⟩ := q
  exact h ca (List.of_mem_zip hq).1

theorem buildGR_size (opt : Options) (ord : MapOrder) (ncol : Nat) (cols : List ColAcc)
    (numCols : List Nat) (gPairs : List (String × List (Nat × PairAcc)))
    (k : String) (ga : GAcc) :
    (buildGR opt ord ncol cols numCols gPairs k ga).Size = ga.size := rfl

theorem grsum_map_buildGR (opt : Options) (ord : MapOrder) (ncol : Nat)
    (cols : List ColAcc) (numCols : List Nat)
    (gPairs : List (String × List (Nat × PairAcc))) :
    ∀ (l : List (String × GAcc)),
    grsum (l.map (fun p => buildGR opt ord ncol cols numCols gPairs p.1 p.2)) = gsum l := by
  intro l
  induction l with
  | nil => rfl
  | cons p rest ih =>
    rw [List.map_cons, grsum_cons, gsum_cons, buildGR_size, ih]

theorem grsum_perm {l1 l2 : List GroupResult} (h : List.Perm l1 l2) : grsum l1 = grsum l2 :=
  List.Perm.sum_eq (List.Perm.map _ h)

theorem gsum_perm {l1 l2 : List (String × GAcc)} (h : List.Perm l1 l2) :
    gsum l1 = gsum l2 :=
  List.Perm.sum_eq (List.Perm.map _ h)

theorem grsum_take (n : Nat) (l : List GroupResult) : grsum (l.take n) ≤ grsum l := by
  conv_rhs => rw [← List.take_append_drop n l]
  unfold grsum
  rw [List.map_append, List.sum_append]
  omega

theorem grsum_groups_build (opt : Options) (ord : MapOrder) (ncol : Nat)
    (cols : List ColAcc) (numCols : List Nat)
    (gPairs : List (String × List (Nat × PairAcc))) (groups : List (String × GAcc))
    (hperm : List.Perm (ord.onGroups groups) groups) :
    grsum ((goSortSlice lessGroup ((ord.onGroups groups).map
      (fun p => buildGR opt ord ncol cols numCols gPairs p.1 p.2))).take 20)
      ≤ gsum groups := by
  have h1 := grsum_take 20 (goSortSlice lessGroup ((ord.onGroups groups).map
    (fun p => buildGR opt ord ncol cols numCols gPairs p.1 p.2)))
  have h2 : grsum (goSortSlice lessGroup ((ord.onGroups groups).map
      (fun p => buildGR opt ord ncol cols numCols gPairs p.1 p.2)))
      = grsum ((ord.onGroups groups).map
        (fun p => buildGR opt ord ncol cols numCols gPairs p.1 p.2)) :=
    grsum_perm (List.perm_insertionSort _ _)
  have h3 := grsum_map_buildGR opt ord ncol cols numCols gPairs (ord.onGroups groups)
  have h4 := gsum_perm hperm
  omega

theorem finalizeReport_groups_le (name : String) (opt : Options) (ord : MapOrder)
    (ncol : Nat) (st : AccState) (hL : ord.Lawful)
    (hg : gsum st.groups ≤ st.processed) :
    grsum (finalizeReport name opt ord ncol st).Groups ≤ st.processed := by
  unfold finalizeReport
  dsimp only
  by_cases hne : st.groups ≠ []
  · rw [if_pos hne]
    exact le_trans (grsum_groups_build opt ord ncol st.cols _ st.gPairs st.groups
      (hL.2.1 st.groups)) hg
  · rw [if_neg hne]
    exact Nat.zero_le _

theorem emptyReport_conserv (name : String) :
    (∀ cs ∈ (emptyReport name).Cols, cs.NonNull + cs.Missing = (emptyReport name).Processed) ∧
    grsum (emptyReport name).Groups ≤ (emptyReport name).Processed := by
  constructor
  · intro cs hcs
    simp [emptyReport] at hcs
  · exact Nat.le_refl 0

/-- Claim C1: for any Report either analyzer returns (under the lawful
map-iteration oracle), every column summary satisfies
NonNull + Missing = Processed, and the total Size over the group results
is at most Processed. -/
theorem C1_confirmed_theorem (name : String) (recs : List (List String)) (opt : Options)
    (ord : MapOrder) (rep : Report) (hL : ord.Lawful)
    (h : AnalyzeCSV name recs opt ord = .ok rep ∨ AnalyzeXLSX name recs opt ord = .ok rep) :
    (∀ cs ∈ rep.Cols, cs.NonNull + cs.Missing = rep.Processed) ∧
    grsum rep.Groups ≤ rep.Processed := by
  have hcore : ∀ (header : List String) (rows : List (List String)) (sr : Int),
      rep = analyzeCore name header rows opt sr ord →
      (∀ cs ∈ rep.Cols, cs.NonNull + cs.Missing = rep.Processed) ∧
      grsum rep.Groups ≤ rep.Processed := by
    intro header rows sr hrep
    have hinv := foldl_inv opt header.length (initGbIndex (initCols header))
      ((initCols header).map (fun c => c.name)) sr rows (initState header)
      (initState_cols header) (Nat.le_refl 0)
    rw [hrep, analyzeCore_eq]
    constructor
    · intro cs hcs
      rw [finalizeReport_processed]
      exact finalizeReport_cols_counts _ _ _ _ _ hinv.1 cs hcs
    · rw [finalizeReport_processed]
      exact finalizeReport_groups_le _ _ _ _ _ hL hinv.2
  rcases h with hok | hok
  · cases recs with
    | nil =>
      injection hok with he
      rw [← he]
      exact emptyReport_conserv name
    | cons header rows =>
      rw [show AnalyzeCSV name (header :: rows) opt ord
          = (if header.length = 0 then Except.ok (emptyReport name)
             else Except.ok (analyzeCore name header rows opt
               (if opt.SampleRows ≤ 0 then 5 else opt.SampleRows) ord)) from rfl] at hok
      by_cases hh : header.length = 0
      · rw [if_pos hh] at hok
        injection hok with he
        rw [← he]
        exact emptyReport_conserv name
      · rw [if_neg hh] at hok
        injection hok with he
        exact hcore header rows _ he.symm
  · cases recs with
    | nil =>
      injection hok with he
      rw [← he]
      exact emptyReport_conserv name
    | cons header rows =>
      rw [show AnalyzeXLSX name (header :: rows) opt ord
          = (if header.length = 0 then Except.ok (emptyReport name)
             else Except.ok (analyzeCore name header rows opt
               (if opt.SampleRows < 0 then 5 else opt.SampleRows) ord)) from rfl] at hok
      by_cases hh : header.length = 0
      · rw [if_pos hh] at hok
        injection hok with he
        rw [← he]
        exact emptyReport_conserv name
      · rw [if_neg hh] at hok
        injection hok with he
        exact hcore header rows _ he.symm

def c1rep : Report :=
  (AnalyzeCSV "f" [["g", "a"], ["x", "1"], ["x", ""], ["y", "2"]]
    { GroupBy := ["g"] } idOrder).toOption.getD (emptyReport "f")

set_option maxRecDepth 10000 in
theorem C1_witness :
    (∀ cs ∈ c1rep.Cols, cs.NonNull + cs.Missing = c1rep.Processed) ∧
    grsum c1rep.Groups ≤ c1rep.Processed :=
  C1_confirmed_theorem "f" [["g", "a"], ["x", "1"], ["x", ""], ["y", "2"]]
    { GroupBy := ["g"] } idOrder c1rep idOrder_lawful (Or.inl rfl)

/-! ### Order theory of the three comparators -/

theorem listLt_asymm : ∀ (a b : List Char), listLt a b = true → listLt b a = false := by
  intro a
  induction a with
  | nil =>
    intro b h
    cases b with
    | nil => exact absurd h (by simp [listLt])
    | cons x xs => rfl
  | cons x xs ih =>
    intro b h
    cases b with
    | nil => exact absurd h (by simp [listLt])
    | cons y ys =>
      unfold listLt at h ⊢
      rcases lt_trichotomy x y with hxy | hxy | hxy
      · rw [if_neg (lt_asymm hxy), if_pos hxy]
      · subst hxy
        rw [if_neg (lt_irrefl x), if_neg (lt_irrefl x)] at h ⊢
        exact ih ys h
      · rw [if_neg (lt_asymm hxy), if_pos hxy] at h
        exact absurd h (by simp)

theorem listLt_trans : ∀ (a b c : List Char), listLt a b = true → listLt b c = true →
    listLt a c = true := by
  intro a
  induction a with
  | nil =>
    intro b c hab hbc
    cases c with
    | nil =>
      cases b with
      | nil => exact hab
      | cons y ys => exact absurd hbc (by simp [listLt])
    | cons z zs => rfl
  | cons x xs ih =>
    intro b c hab hbc
    cases b with
    | nil => exact absurd hab (by simp [listLt])
    | cons y ys =>
      cases c with
      | nil => exact absurd hbc (by simp [listLt])
      | cons z zs =>
        unfold listLt at hab hbc ⊢
        rcases lt_trichotomy x y with hxy | hxy | hxy
        · rcases lt_trichotomy y z with hyz | hyz | hyz
          · rw [if_pos (lt_trans hxy hyz)]
          · subst hyz
            rw [if_pos hxy]
          · rw [if_neg (lt_asymm hyz), if_pos hyz] at hbc
            exact absurd hbc (by simp)
        · subst hxy
          rw [if_neg (lt_irrefl x), if_neg (lt_irrefl x)] at hab
          rcases lt_trichotomy x z with hxz | hxz | hxz
          · rw [if_pos hxz]
          · subst hxz
            rw [if_neg (lt_irrefl x), if_neg (lt_irrefl x)] at hbc ⊢
            exact ih ys zs hab hbc
          · rw [if_neg (lt_asymm hxz), if_pos hxz] at hbc
            exact absurd hbc (by simp)
        · rw [if_neg (lt_asymm hxy), if_pos hxy] at hab
          exact absurd hab (by simp)

theorem listLt_conn : ∀ (a b : List Char), listLt a b = false → listLt b a = false →
    a = b := by
  intro a
  induction a with
  | nil =>
    intro b hab _
    cases b with
    | nil => rfl
    | cons y ys => exact absurd hab (by simp [listLt])
  | cons x xs ih =>
    intro b hab hba
    cases b with
    | nil => exact absurd hba (by simp [listLt])
    | cons y ys =>
      unfold listLt at hab hba
      rcases lt_trichotomy x y with hxy | hxy | hxy
      · rw [if_pos hxy] at hab
        exact absurd hab (by simp)
      · subst hxy
        rw [if_neg (lt_irrefl x), if_neg (lt_irrefl x)] at hab hba
        rw [ih ys hab hba]
      · rw [if_neg (lt_asymm hxy), if_pos hxy] at hba
        exact absurd hba (by simp)

theorem listLt_neg_trans (a b c : List Char) (hba : listLt b a = false)
    (hcb : listLt c b = false) : listLt c a = false := by
  by_contra hc
  have hca : listLt c a = true := by
    cases h : listLt c a with
    | true => rfl
    | false => exact absurd h hc
  by_cases hxy : a = b
  · subst hxy
    rw [hca] at hcb
    exact absurd hcb (by simp)
  · by_cases hyz : b = c
    · subst hyz
      rw [hca] at hba
      exact absurd hba (by simp)
    · cases hab : listLt a b with
      | false => exact hxy (listLt_conn a b hab hba)
      | true =>
        cases hbc : listLt b c with
        | false => exact hyz (listLt_conn b c hbc hcb)
        | true =>
          have := listLt_trans a b c hab hbc
          have h2 := listLt_asymm a c this
          rw [hca] at h2
          exact absurd h2 (by simp)

theorem strLt_asymm (a b : String) (h : strLt a b = true) : strLt b a = false :=
  listLt_asymm a.data b.data h

theorem strLt_neg_trans (a b c : String) (hba : strLt b a = false)
    (hcb : strLt c b = false) : strLt c a = false :=
  listLt_neg_trans a.data b.data c.data hba hcb

theorem strLt_conn (a b : String) (hab : strLt a b = false) (hba : strLt b a = false) :
    a = b := by
  have h := listLt_conn a.data b.data hab hba
  obtain ⟨da⟩ := a
  obtain ⟨db⟩ := b
  exact congrArg String.mk h

theorem Frac.veq_symm {a b : Frac} (h : a.veq b) : b.veq a := h.symm

theorem Frac.veq_iff_toRat {a b : Frac} (ha : 0 < a.den) (hb : 0 < b.den) :
    a.veq b ↔ a.toRat = b.toRat := by
  unfold Frac.veq Frac.toRat
  rw [div_eq_div_iff (by exact_mod_cast Nat.pos_iff_ne_zero.mp ha)
    (by exact_mod_cast Nat.pos_iff_ne_zero.mp hb)]
  constructor <;> intro h <;> exact_mod_cast h

theorem Frac.lt_iff_toRat {a b : Frac} (ha : 0 < a.den) (hb : 0 < b.den) :
    a < b ↔ a.toRat < b.toRat := by
  show a.num * (b.den : Int) < b.num * (a.den : Int) ↔ _
  unfold Frac.toRat
  rw [div_lt_div_iff (by exact_mod_cast ha) (by exact_mod_cast hb)]
  constructor <;> intro h <;> exact_mod_cast h

theorem fabs_den (x : Frac) : x.fabs.den = x.den := rfl

theorem lessPair_asymm (p q : PairCorr) (h : lessPair p q = true) :
    lessPair q p = false := by
  unfold lessPair at h ⊢
  by_cases hv : (p.R.fabs).veq (q.R.fabs)
  · rw [if_pos hv] at h
    rw [if_pos (Frac.veq_symm hv)]
    exact strLt_asymm _ _ h
  · rw [if_neg hv] at h
    rw [if_neg (fun hc => hv (Frac.veq_symm hc))]
    have h1 : (q.R.fabs).num * ((p.R.fabs).den : Int)
        < (p.R.fabs).num * ((q.R.fabs).den : Int) := of_decide_eq_true h
    apply decide_eq_false
    intro hc
    have h2 : (p.R.fabs).num * ((q.R.fabs).den : Int)
        < (q.R.fabs).num * ((p.R.fabs).den : Int) := hc
    omega

theorem lessPair_trans_neg (a b c : PairCorr)
    (ha : 0 < a.R.den) (hb : 0 < b.R.den) (hc : 0 < c.R.den)
    (hba : lessPair b a = false) (hcb : lessPair c b = false) :
    lessPair c a = false := by
  have ha2 : 0 < (a.R.fabs).den := ha
  have hb2 : 0 < (b.R.fabs).den := hb
  have hc2 : 0 < (c.R.fabs).den := hc
  unfold lessPair at hba hcb ⊢
  by_cases h1 : (b.R.fabs).veq (a.R.fabs)
  · rw [if_pos h1] at hba
    have hq1 : (b.R.fabs).toRat = (a.R.fabs).toRat := (Frac.veq_iff_toRat hb2 ha2).mp h1
    by_cases h2 : (c.R.fabs).veq (b.R.fabs)
    · rw [if_pos h2] at hcb
      have hq2 : (c.R.fabs).toRat = (b.R.fabs).toRat := (Frac.veq_iff_toRat hc2 hb2).mp h2
      have hca : (c.R.fabs).veq (a.R.fabs) :=
        (Frac.veq_iff_toRat hc2 ha2).mpr (hq2.trans hq1)
      rw [if_pos hca]
      exact strLt_neg_trans _ _ _ hba hcb
    · rw [if_neg h2] at hcb
      have hlt : ¬ ((b.R.fabs) < (c.R.fabs)) := of_decide_eq_false hcb
      have hq2 : (c.R.fabs).toRat < (b.R.fabs).toRat := by
        rcases lt_trichotomy ((c.R.fabs).toRat) ((b.R.fabs).toRat) with h | h | h
        · exact h
        · exact absurd ((Frac.veq_iff_toRat hc2 hb2).mpr h) h2
        · exact absurd ((Frac.lt_iff_toRat hb2 hc2).mpr h) hlt
      have hq3 : (c.R.fabs).toRat < (a.R.fabs).toRat := by rw [← hq1]; exact hq2
      rw [if_neg (fun hv => absurd ((Frac.veq_iff_toRat hc2 ha2).mp hv) (ne_of_lt hq3))]
      apply decide_eq_false
      intro hlt2
      exact absurd ((Frac.lt_iff_toRat ha2 hc2).mp hlt2) (not_lt_of_lt hq3)
  · rw [if_neg h1] at hba
    have hlt1 : ¬ ((a.R.fabs) < (b.R.fabs)) := of_decide_eq_false hba
    have hq1 : (b.R.fabs).toRat < (a.R.fabs).toRat := by
      rcases lt_trichotomy ((b.R.fabs).toRat) ((a.R.fabs).toRat) with h | h | h
      · exact h
      · exact absurd ((Frac.veq_iff_toRat hb2 ha2).mpr h) h1
      · exact absurd ((Frac.lt_iff_toRat ha2 hb2).mpr h) hlt1
    have hq2 : (c.R.fabs).toRat ≤ (b.R.fabs).toRat := by
      by_cases h2 : (c.R.fabs).veq (b.R.fabs)
      · exact le_of_eq ((Frac.veq_iff_toRat hc2 hb2).mp h2)
      · rw [if_neg h2] at hcb
        have hlt2 : ¬ ((b.R.fabs) < (c.R.fabs)) := of_decide_eq_false hcb
        rcases lt_trichotomy ((c.R.fabs).toRat) ((b.R.fabs).toRat) with h | h | h
        · exact le_of_lt h
        · exact le_of_eq h
        · exact absurd ((Frac.lt_iff_toRat hb2 hc2).mpr h) hlt2
    have hq3 : (c.R.fabs).toRat < (a.R.fabs).toRat := lt_of_le_of_lt hq2 hq1
    rw [if_neg (fun hv => absurd ((Frac.veq_iff_toRat hc2 ha2).mp hv) (ne_of_lt hq3))]
    apply decide_eq_false
    intro hlt2
    exact absurd ((Frac.lt_iff_toRat ha2 hc2).mp hlt2) (not_lt_of_lt hq3)

/-! ### Sortedness of insertionSort under element-restricted laws -/

theorem pairwise_orderedInsert {α : Type} (R : α → α → Prop) [DecidableRel R]
    (P : α → Prop) (htot : ∀ x y, P x → P y → ¬ R x y → R y x)
    (htrans : ∀ x y z, P x → P y → P z → R x y → R y z → R x z) :
    ∀ (l : List α) (a : α), P a → (∀ x ∈ l, P x) → List.Pairwise R l →
      List.Pairwise R (List.orderedInsert R a l) := by
  intro l
  induction l with
  | nil =>
    intro a _ _ _
    simp [List.orderedInsert]
  | cons b t ih =>
    intro a hpa hpl hpw
    rw [List.orderedInsert]
    by_cases hr : R a b
    · rw [if_pos hr]
      constructor
      · intro x hx
        rcases List.mem_cons.mp hx with rfl | hxt
        · exact hr
        · exact htrans a b x hpa (hpl b (List.mem_cons_self b t))
            (hpl x (List.mem_cons_of_mem b hxt)) hr
            ((List.pairwise_cons.mp hpw).1 x hxt)
      · exact hpw
    · rw [if_neg hr]
      have hba : R b a := htot a b hpa (hpl b (List.mem_cons_self b t)) hr
      constructor
      · intro x hx
        rcases (List.mem_orderedInsert R).mp hx with rfl | hxt
        · exact hba
        · exact (List.pairwise_cons.mp hpw).1 x hxt
      · exact ih a hpa (fun x hx => hpl x (List.mem_cons_of_mem b hx))
          (List.pairwise_cons.mp hpw).2

theorem pairwise_insertionSort {α : Type} (R : α → α → Prop) [DecidableRel R]
    (P : α → Prop) (htot : ∀ x y, P x → P y → ¬ R x y → R y x)
    (htrans : ∀ x y z, P x → P y → P z → R x y → R y z → R x z) :
    ∀ (l : List α), (∀ x ∈ l, P x) → List.Pairwise R (List.insertionSort R l) := by
  intro l
  induction l with
  | nil =>
    intro _
    simp
  | cons a t ih =>
    intro hp
    rw [List.insertionSort]
    apply pairwise_orderedInsert R P htot htrans
    · exact hp a (List.mem_cons_self a t)
    · intro x hx
      exact hp x (List.mem_cons_of_mem a ((List.perm_insertionSort R t).mem_iff.mp hx))
    · exact ih (fun x hx => hp x (List.mem_cons_of_mem a hx))

theorem eq_of_perm_of_pairwise {α : Type} (R : α → α → Prop) :
    ∀ (l1 l2 : List α), List.Perm l1 l2 → List.Pairwise R l1 → List.Pairwise R l2 →
      (∀ a b, a ∈ l1 → b ∈ l1 → R a b → R b a → a = b) → l1 = l2 := by
  intro l1
  induction l1 with
  | nil =>
    intro l2 hperm _ _ _
    exact hperm.nil_eq
  | cons a t1 ih =>
    intro l2 hperm hp1 hp2 hanti
    cases l2 with
    | nil => exact absurd hperm.length_eq (by simp)
    | cons b t2 =>
      have hab : a = b := by
        by_contra hne
        have hma : a ∈ b :: t2 := hperm.mem_iff.mp (List.mem_cons_self a t1)
        have hat2 : a ∈ t2 := by
          rcases List.mem_cons.mp hma with h | h
          · exact absurd h hne
          · exact h
        have hmb : b ∈ a :: t1 := hperm.mem_iff.mpr (List.mem_cons_self b t2)
        have hbt1 : b ∈ t1 := by
          rcases List.mem_cons.mp hmb with h | h
          · exact absurd h.symm hne
          · exact h
        have hRab : R a b := (List.pairwise_cons.mp hp1).1 b hbt1
        have hRba : R b a := (List.pairwise_cons.mp hp2).1 a hat2
        exact hne (hanti a b (List.mem_cons_self a t1) (List.mem_cons_of_mem a hbt1)
          hRab hRba)
      subst hab
      rw [ih t2 hperm.cons_inv (List.pairwise_cons.mp hp1).2 (List.pairwise_cons.mp hp2).2
        (fun x y hx hy => hanti x y (List.mem_cons_of_mem a hx) (List.mem_cons_of_mem a hy))]

/-! ### Claim C7 -/

/-- The element the per-group correlation loop keeps for one pair map
entry (none when n < 2 or the variance product is degenerate). -/
def pairFromKey (cols : List ColAcc) (ncol : Nat) (p : Nat × PairAcc) : Option PairCorr :=
  if p.2.n < mkFrac 2 1 then none
  else
    if (pairDenom p.2).veq 0 then none
    else
      some ⟨(cols.getD (p.1 % ncol) emptyColAcc).name,
        (cols.getD (p.1 / ncol) emptyColAcc).name,
        clampR ((p.2.n * p.2.sumXY - p.2.sumX * p.2.sumY) / pairDenom p.2)⟩

theorem foldPairs_eq (cols : List ColAcc) (ncol : Nat) :
    ∀ (l : List (Nat × PairAcc)) (acc : List PairCorr),
    l.foldl (fun acc2 p =>
      if p.2.n < mkFrac 2 1 then acc2
      else
        if (pairDenom p.2).veq 0 then acc2
        else acc2 ++ [⟨(cols.getD (p.1 % ncol) emptyColAcc).name,
          (cols.getD (p.1 / ncol) emptyColAcc).name,
          clampR ((p.2.n * p.2.sumXY - p.2.sumX * p.2.sumY) / pairDenom p.2)⟩]) acc
      = acc ++ l.filterMap (pairFromKey cols ncol) := by
  intro l
  induction l with
  | nil =>
    intro acc
    simp
  | cons p rest ih =>
    intro acc
    rw [List.foldl_cons]
    by_cases h1 : p.2.n < mkFrac 2 1
    · rw [if_pos h1, ih]
      have hf : pairFromKey cols ncol p = none := by
        unfold pairFromKey
        rw [if_pos h1]
      rw [List.filterMap_cons, hf]
    · rw [if_neg h1]
      by_cases h2 : (pairDenom p.2).veq 0
      · rw [if_pos h2, ih]
        have hf : pairFromKey cols ncol p = none := by
          unfold pairFromKey
          rw [if_neg h1, if_pos h2]
        rw [List.filterMap_cons, hf]
      · rw [if_neg h2, ih]
        have hf : pairFromKey cols ncol p
            = some ⟨(cols.getD (p.1 % ncol) emptyColAcc).name,
              (cols.getD (p.1 / ncol) emptyColAcc).name,
              clampR ((p.2.n * p.2.sumXY - p.2.sumX * p.2.sumY) / pairDenom p.2)⟩ := by
          unfold pairFromKey
          rw [if_neg h1, if_neg h2]
        rw [List.filterMap_cons, hf]
        simp

theorem filterMap_pairs_den (cols : List ColAcc) (ncol : Nat)
    (l : List (Nat × PairAcc)) :
    ∀ p ∈ l.filterMap (pairFromKey cols ncol), 0 < p.R.den := by
  intro p hp
  rcases List.mem_filterMap.mp hp with ⟨a, _, ha⟩
  unfold pairFromKey at ha
  by_cases h1 : a.2.n < mkFrac 2 1
  · rw [if_pos h1] at ha
    exact absurd ha (by simp)
  · rw [if_neg h1] at ha
    by_cases h2 : (pairDenom a.2).veq 0
    · rw [if_pos h2] at ha
      exact absurd ha (by simp)
    · rw [if_neg h2] at ha
      injection ha with ha2
      rw [← ha2]
      exact clampR_den_pos _ (div_den_pos _ _)

theorem buildGR_corrPairs (opt : Options) (ord : MapOrder) (ncol : Nat)
    (cols : List ColAcc) (numCols : List Nat)
    (gPairs : List (String × List (Nat × PairAcc))) (k : String) (ga : GAcc) :
    (buildGR opt ord ncol cols numCols gPairs k ga).CorrPairs
      = if opt.CorrPerGroup = true then
          match alookup gPairs k with
          | none => []
          | some gp => (goSortSlice lessPair
              ((ord.onPairs gp).filterMap (pairFromKey cols ncol))).take 10
        else [] := by
  have h0 : (buildGR opt ord ncol cols numCols gPairs k ga).CorrPairs
      = (if opt.CorrPerGroup = true then
          match alookup gPairs k with
          | none => []
          | some gp => (goSortSlice lessPair
              ((ord.onPairs gp).foldl (fun acc2 p =>
                if p.2.n < mkFrac 2 1 then acc2
                else
                  if (pairDenom p.2).veq 0 then acc2
                  else acc2 ++ [⟨(cols.getD (p.1 % ncol) emptyColAcc).name,
                    (cols.getD (p.1 / ncol) emptyColAcc).name,
                    clampR ((p.2.n * p.2.sumXY - p.2.sumX * p.2.sumY) / pairDenom p.2)⟩])
                [])).take 10
        else []) := rfl
  rw [h0]
  by_cases hcp : opt.CorrPerGroup = true
  · rw [if_pos hcp, if_pos hcp]
    cases alookup gPairs k with
    | none => rfl
    | some gp =>
      dsimp only
      rw [foldPairs_eq]
      rfl
  · rw [if_neg hcp, if_neg hcp]

theorem buildGR_pairs_spec (opt : Options) (ord : MapOrder) (ncol : Nat)
    (cols : List ColAcc) (numCols : List Nat)
    (gPairs : List (String × List (Nat × PairAcc))) (k : String) (ga : GAcc) :
    (buildGR opt ord ncol cols numCols gPairs k ga).CorrPairs.length ≤ 10 ∧
    List.Pairwise (fun p q => lessPair q p = false)
      (buildGR opt ord ncol cols numCols gPairs k ga).CorrPairs := by
  rw [buildGR_corrPairs]
  by_cases hcp : opt.CorrPerGroup = true
  · rw [if_pos hcp]
    cases hl : alookup gPairs k with
    | none => simp
    | some gp =>
      constructor
      · exact List.length_take_le 10 _
      · have hsorted := pairwise_insertionSort (fun p q => lessPair q p = false)
          (fun p => 0 < p.R.den)
          (fun x y _ _ hnr => by
            apply lessPair_asymm
            cases h : lessPair y x with
            | true => rfl
            | false => exact absurd h hnr)
          (fun x y z hx hy hz h1 h2 => lessPair_trans_neg x y z hx hy hz h1 h2)
          ((ord.onPairs gp).filterMap (pairFromKey cols ncol))
          (filterMap_pairs_den cols ncol _)
        exact hsorted.sublist (List.take_sublist 10 _)
  · rw [if_neg hcp]
    simp

theorem groups_mem_buildGR (name : String) (opt : Options) (ord : MapOrder)
    (ncol : Nat) (st : AccState) (g : GroupResult)
    (hg : g ∈ (finalizeReport name opt ord ncol st).Groups) :
    ∃ (numCols : List Nat) (p : String × GAcc),
      g = buildGR opt ord ncol st.cols numCols st.gPairs p.1 p.2 := by
  unfold finalizeReport at hg
  dsimp only at hg
  by_cases hne : st.groups ≠ []
  · rw [if_pos hne] at hg
    have hg2 := List.mem_of_mem_take hg
    rw [goSortSlice] at hg2
    have hg3 := (List.perm_insertionSort _ _).mem_iff.mp hg2
    rcases List.mem_map.mp hg3 with ⟨p, _, rfl⟩
    exact ⟨_, p, rfl⟩
  · rw [if_neg hne] at hg
    exact absurd hg (List.not_mem_nil g)

def headMatch : List Char → List Char → Bool
  | [], _ => true
  | _ :: _, [] => false
  | c :: cs, d :: ds => c == d && headMatch cs ds

/-- Naive substring search over character lists. -/
def containsSub : List Char → List Char → Bool
  | pat, [] => pat.isEmpty
  | pat, d :: ds => headMatch pat (d :: ds) || containsSub pat ds

set_option maxRecDepth 10000

def grp9 : GroupResult :=
  ⟨"g=x", 9, [],
    [⟨"a", "b1", ⟨9, 10⟩⟩, ⟨"a", "b2", ⟨8, 10⟩⟩, ⟨"a", "b3", ⟨7, 10⟩⟩,
     ⟨"a", "b4", ⟨6, 10⟩⟩, ⟨"a", "b5", ⟨5, 10⟩⟩, ⟨"a", "b6", ⟨4, 10⟩⟩,
     ⟨"a", "b7", ⟨3, 10⟩⟩, ⟨"a", "b8", ⟨2, 10⟩⟩, ⟨"a", "b9", ⟨1, 10⟩⟩]⟩

def rep9 : Report := ⟨"t", 9, 9, [], [], [], [grp9], none⟩

/-- Counterexample for claim C7 as stated: a Report with a nine-pair
per-group list (legitimately ranked, within the claimed cap of 10)
renders only eight bullet lines; the ninth pair is absent from the
rendered text. -/
theorem C7_counterexample :
    (∃ g ∈ rep9.Groups, g.CorrPairs.length = 9 ∧
      List.Pairwise (fun p q => lessPair q p = false) g.CorrPairs) ∧
    containsSub (pairLine ⟨"a", "b8", ⟨2, 10⟩⟩).data
      (Report.Markdown idOrder rep9).data = true ∧
    containsSub (pairLine ⟨"a", "b9", ⟨1, 10⟩⟩).data
      (Report.Markdown idOrder rep9).data = false :=
  ⟨⟨grp9, by decide, by decide, by decide⟩, by decide, by decide⟩

/-- Claim C7, amended: the analysis ranks each per-group list by
descending |r| with ties broken by the ascending concatenation of the
two names and caps it at 10, but the renderer prints at most 8 pairs
per group (lim := 8 in the source). -/
theorem C7_corrected_theorem (name : String) (recs : List (List String))
    (opt : Options) (ord : MapOrder) (rep : Report)
    (h : AnalyzeCSV name recs opt ord = .ok rep ∨
         AnalyzeXLSX name recs opt ord = .ok rep) :
    (∀ g ∈ rep.Groups, g.CorrPairs.length ≤ 10 ∧
       List.Pairwise (fun p q => lessPair q p = false) g.CorrPairs) ∧
    (∀ g : GroupResult, gcorrBlock g
       = if g.CorrPairs = [] then ""
         else "- " ++ g.Key ++ ":\n" ++ concatAll ((g.CorrPairs.take 8).map pairLine)) := by
  constructor
  · have hcore : ∀ (header : List String) (rows : List (List String)) (sr : Int),
        rep = analyzeCore name header rows opt sr ord →
        ∀ g ∈ rep.Groups, g.CorrPairs.length ≤ 10 ∧
          List.Pairwise (fun p q => lessPair q p = false) g.CorrPairs := by
      intro header rows sr hrep g hgmem
      rw [hrep, analyzeCore_eq] at hgmem
      obtain ⟨numCols, p, rfl⟩ := groups_mem_buildGR _ _ _ _ _ _ hgmem
      exact buildGR_pairs_spec opt ord header.length _ numCols _ p.1 p.2
    rcases h with hok | hok
    · cases recs with
      | nil =>
        injection hok with he
        rw [← he]
        intro g hgmem
        simp [emptyReport] at hgmem
      | cons header rows =>
        rw [show AnalyzeCSV name (header :: rows) opt ord
            = (if header.length = 0 then Except.ok (emptyReport name)
               else Except.ok (analyzeCore name header rows opt
                 (if opt.SampleRows ≤ 0 then 5 else opt.SampleRows) ord)) from rfl] at hok
        by_cases hh : header.length = 0
        · rw [if_pos hh] at hok
          injection hok with he
          rw [← he]
          intro g hgmem
          simp [emptyReport] at hgmem
        · rw [if_neg hh] at hok
          injection hok with he
          exact hcore header rows _ he.symm
    · cases recs with
      | nil =>
        injection hok with he
        rw [← he]
        intro g hgmem
        simp [emptyReport] at hgmem
      | cons header rows =>
        rw [show AnalyzeXLSX name (header :: rows) opt ord
            = (if header.length = 0 then Except.ok (emptyReport name)
               else Except.ok (analyzeCore name header rows opt
                 (if opt.SampleRows < 0 then 5 else opt.SampleRows) ord)) from rfl] at hok
        by_cases hh : header.length = 0
        · rw [if_pos hh] at hok
          injection hok with he
          rw [← he]
          intro g hgmem
          simp [emptyReport] at hgmem
        · rw [if_neg hh] at hok
          injection hok with he
          exact hcore header rows _ he.symm
  · intro g
    unfold gcorrBlock
    by_cases he : g.CorrPairs = []
    · rw [if_pos he, if_pos he]
    · rw [if_neg he, if_neg he]
      by_cases hlen : g.CorrPairs.length < 8
      · rw [if_pos hlen]
        rw [List.take_length, List.take_of_length_le (Nat.le_of_lt hlen)]
      · rw [if_neg hlen]

def c7rep : Report :=
  (AnalyzeCSV "f" [["g", "a", "b"], ["x", "1", "2"], ["x", "2", "4"]]
    { GroupBy := ["g"], Correlations := true, CorrPerGroup := true }
    idOrder).toOption.getD (emptyReport "f")

set_option maxRecDepth 10000 in
theorem C7_witness :
    (∀ g ∈ c7rep.Groups, g.CorrPairs.length ≤ 10 ∧
       List.Pairwise (fun p q => lessPair q p = false) g.CorrPairs) ∧
    (∀ g : GroupResult, gcorrBlock g
       = if g.CorrPairs = [] then ""
         else "- " ++ g.Key ++ ":\n" ++ concatAll ((g.CorrPairs.take 8).map pairLine)) :=
  C7_corrected_theorem "f" [["g", "a", "b"], ["x", "1", "2"], ["x", "2", "4"]]
    { GroupBy := ["g"], Correlations := true, CorrPerGroup := true }
    idOrder c7rep (Or.inl rfl)

/-! ### Claim C8: determinism of analysis plus rendering -/

theorem natStrLess_asymm (n1 n2 : Nat) (s1 s2 : String)
    (h : (if n1 = n2 then strLt s1 s2 else decide (n2 < n1)) = true) :
    (if n2 = n1 then strLt s2 s1 else decide (n1 < n2)) = false := by
  by_cases he : n1 = n2
  · rw [if_pos he] at h
    rw [if_pos he.symm]
    exact strLt_asymm _ _ h
  · rw [if_neg he] at h
    rw [if_neg (fun hc => he hc.symm)]
    have h2 := of_decide_eq_true h
    apply decide_eq_false
    omega

theorem natStrLess_neg_trans (na nb nc : Nat) (sa sb sc : String)
    (hba : (if nb = na then strLt sb sa else decide (na < nb)) = false)
    (hcb : (if nc = nb then strLt sc sb else decide (nb < nc)) = false) :
    (if nc = na then strLt sc sa else decide (na < nc)) = false := by
  by_cases hba1 : nb = na
  · rw [if_pos hba1] at hba
    by_cases hcb1 : nc = nb
    · rw [if_pos hcb1] at hcb
      rw [if_pos (hcb1.trans hba1)]
      exact strLt_neg_trans _ _ _ hba hcb
    · rw [if_neg hcb1] at hcb
      have h1 := of_decide_eq_false hcb
      rw [if_neg (by omega : ¬ nc = na)]
      apply decide_eq_false
      omega
  · rw [if_neg hba1] at hba
    have h1 := of_decide_eq_false hba
    by_cases hcb1 : nc = nb
    · rw [if_neg (by omega : ¬ nc = na)]
      apply decide_eq_false
      omega
    · rw [if_neg hcb1] at hcb
      have h2 := of_decide_eq_false hcb
      rw [if_neg (by omega : ¬ nc = na)]
      apply decide_eq_false
      omega

theorem natStrLess_conn (n1 n2 : Nat) (s1 s2 : String)
    (h1 : (if n1 = n2 then strLt s1 s2 else decide (n2 < n1)) = false)
    (h2 : (if n2 = n1 then strLt s2 s1 else decide (n1 < n2)) = false) :
    n1 = n2 ∧ s1 = s2 := by
  by_cases he : n1 = n2
  · rw [if_pos he] at h1
    rw [if_pos he.symm] at h2
    exact ⟨he, strLt_conn _ _ h1 h2⟩
  · rw [if_neg he] at h1
    rw [if_neg (fun hc => he hc.symm)] at h2
    have h3 := of_decide_eq_false h1
    have h4 := of_decide_eq_false h2
    exfalso
    omega

theorem lessCat_asymm (a b : CategoryCount) (h : lessCat a b = true) :
    lessCat b a = false :=
  natStrLess_asymm a.Count b.Count a.Value b.Value h

theorem lessCat_neg_trans (a b c : CategoryCount) (hba : lessCat b a = false)
    (hcb : lessCat c b = false) : lessCat c a = false :=
  natStrLess_neg_trans a.Count b.Count c.Count a.Value b.Value c.Value hba hcb

theorem lessCat_conn (a b : CategoryCount) (h1 : lessCat a b = false)
    (h2 : lessCat b a = false) : a.Count = b.Count ∧ a.Value = b.Value :=
  natStrLess_conn a.Count b.Count a.Value b.Value h1 h2

theorem lessGroup_asymm (a b : GroupResult) (h : lessGroup a b = true) :
    lessGroup b a = false :=
  natStrLess_asymm a.Size b.Size a.Key b.Key h

theorem lessGroup_neg_trans (a b c : GroupResult) (hba : lessGroup b a = false)
    (hcb : lessGroup c b = false) : lessGroup c a = false :=
  natStrLess_neg_trans a.Size b.Size c.Size a.Key b.Key c.Key hba hcb

theorem lessGroup_conn (a b : GroupResult) (h1 : lessGroup a b = false)
    (h2 : lessGroup b a = false) : a.Size = b.Size ∧ a.Key = b.Key :=
  natStrLess_conn a.Size b.Size a.Key b.Key h1 h2

/-- Shared uniqueness of goSortSlice across two permuted inputs, for a
comparator asymmetric everywhere, negatively transitive on elements
satisfying P, and with no ties among the elements at hand. -/
theorem sortSlice_unique {α : Type} (less : α → α → Bool)
    (hasym : ∀ a b, less a b = true → less b a = false)
    (P : α → Prop)
    (htrans : ∀ x y z, P x → P y → P z → less y x = false → less z y = false →
      less z x = false)
    (l1 l2 : List α) (hperm : List.Perm l1 l2) (hP : ∀ x ∈ l1, P x)
    (hanti : ∀ a b, a ∈ l1 → b ∈ l1 → less a b = false → less b a = false → a = b) :
    goSortSlice less l1 = goSortSlice less l2 := by
  unfold goSortSlice
  have htot : ∀ x y : α, P x → P y → ¬ (less y x = false) → less x y = false := by
    intro x y _ _ hn
    apply hasym
    cases h : less y x with
    | true => rfl
    | false => exact absurd h hn
  have hP2 : ∀ x ∈ l2, P x := fun x hx => hP x (hperm.mem_iff.mpr hx)
  apply eq_of_perm_of_pairwise (fun a b => less b a = false)
  · exact ((List.perm_insertionSort _ l1).trans hperm).trans
      (List.perm_insertionSort _ l2).symm
  · exact pairwise_insertionSort _ P htot
      (fun x y z hx hy hz h1 h2 => htrans x y z hx hy hz h1 h2) l1 hP
  · exact pairwise_insertionSort _ P htot
      (fun x y z hx hy hz h1 h2 => htrans x y z hx hy hz h1 h2) l2 hP2
  · intro a b ha hb hab hba
    have ha2 := (List.perm_insertionSort _ l1).mem_iff.mp ha
    have hb2 := (List.perm_insertionSort _ l1).mem_iff.mp hb
    exact hanti a b ha2 hb2 hba hab

/-! ### Nodup keys of the association-list maps -/

theorem alistSet_keys_mem {β : Type} :
    ∀ (l : List (String × β)) (k : String) (v : β) (x : String),
    x ∈ (alistSet l k v).map (fun p => p.1) ↔ x ∈ l.map (fun p => p.1) ∨ x = k := by
  intro l
  induction l with
  | nil =>
    intro k v x
    simp [alistSet]
  | cons p rest ih =>
    obtain ⟨k0, v0⟩ := p
    intro k v x
    unfold alistSet
    by_cases hk : k0 = k
    · rw [if_pos hk]
      subst hk
      simp only [List.map_cons, List.mem_cons]
      constructor
      · intro h
        rcases h with h | h
        · exact Or.inr h
        · exact Or.inl (Or.inr h)
      · intro h
        rcases h with (h | h) | h
        · exact Or.inl h
        · exact Or.inr h
        · exact Or.inl h
    · rw [if_neg hk]
      simp only [List.map_cons, List.mem_cons, ih k v x]
      constructor
      · intro h
        rcases h with h | h | h
        · exact Or.inl (Or.inl h)
        · exact Or.inl (Or.inr h)
        · exact Or.inr h
      · intro h
        rcases h with (h | h) | h
        · exact Or.inl h
        · exact Or.inr (Or.inl h)
        · exact Or.inr (Or.inr h)

theorem alistSet_nodup {β : Type} :
    ∀ (l : List (String × β)) (k : String) (v : β),
    (l.map (fun p => p.1)).Nodup → ((alistSet l k v).map (fun p => p.1)).Nodup := by
  intro l
  induction l with
  | nil =>
    intro k v _
    simp [alistSet]
  | cons p rest ih =>
    obtain ⟨k0, v0⟩ := p
    intro k v hnd
    rw [List.map_cons, List.nodup_cons] at hnd
    unfold alistSet
    by_cases hk : k0 = k
    · rw [if_pos hk]
      rw [List.map_cons, List.nodup_cons]
      exact hnd
    · rw [if_neg hk]
      rw [List.map_cons, List.nodup_cons]
      constructor
      · intro hmem
        rcases (alistSet_keys_mem rest k v k0).mp hmem with h | h
        · exact hnd.1 h
        · exact hk h
      · exact ih k v hnd.2

theorem alistBump_keys_mem :
    ∀ (l : List (String × Nat)) (v : String) (x : String),
    x ∈ (alistBump l v).map (fun p => p.1) ↔ x ∈ l.map (fun p => p.1) ∨ x = v := by
  intro l
  induction l with
  | nil =>
    intro v x
    simp [alistBump]
  | cons p rest ih =>
    obtain ⟨k0, n0⟩ := p
    intro v x
    unfold alistBump
    by_cases hk : k0 = v
    · rw [if_pos hk]
      subst hk
      simp only [List.map_cons, List.mem_cons]
      constructor
      · intro h
        rcases h with h | h
        · exact Or.inr h
        · exact Or.inl (Or.inr h)
      · intro h
        rcases h with (h | h) | h
        · exact Or.inl h
        · exact Or.inr h
        · exact Or.inl h
    · rw [if_neg hk]
      simp only [List.map_cons, List.mem_cons, ih v x]
      constructor
      · intro h
        rcases h with h | h | h
        · exact Or.inl (Or.inl h)
        · exact Or.inl (Or.inr h)
        · exact Or.inr h
      · intro h
        rcases h with (h | h) | h
        · exact Or.inl h
        · exact Or.inr (Or.inl h)
        · exact Or.inr (Or.inr h)

theorem alistBump_nodup :
    ∀ (l : List (String × Nat)) (v : String),
    (l.map (fun p => p.1)).Nodup → ((alistBump l v).map (fun p => p.1)).Nodup := by
  intro l
  induction l with
  | nil =>
    intro v _
    simp [alistBump]
  | cons p rest ih =>
    obtain ⟨k0, n0⟩ := p
    intro v hnd
    rw [List.map_cons, List.nodup_cons] at hnd
    unfold alistBump
    by_cases hk : k0 = v
    · rw [if_pos hk]
      rw [List.map_cons, List.nodup_cons]
      exact hnd
    · rw [if_neg hk]
      rw [List.map_cons, List.nodup_cons]
      constructor
      · intro hmem
        rcases (alistBump_keys_mem rest v k0).mp hmem with h | h
        · exact hnd.1 h
        · exact hk h
      · exact ih v hnd.2

theorem nodup_keys_val {β : Type} :
    ∀ (l : List (String × β)) (k : String) (v1 v2 : β),
    (l.map (fun p => p.1)).Nodup → (k, v1) ∈ l → (k, v2) ∈ l → v1 = v2 := by
  intro l
  induction l with
  | nil =>
    intro k v1 v2 _ h1 _
    exact absurd h1 (List.not_mem_nil _)
  | cons p rest ih =>
    obtain ⟨k0, v0⟩ := p
    intro k v1 v2 hnd h1 h2
    rw [List.map_cons, List.nodup_cons] at hnd
    rcases List.mem_cons.mp h1 with he1 | ht1
    · rcases List.mem_cons.mp h2 with he2 | ht2
      · injection he1 with ha hb
        injection he2 with hc hd
        rw [hb, hd]
      · injection he1 with ha hb
        exfalso
        apply hnd.1
        show k0 ∈ List.map (fun p => p.1) rest
        rw [← ha]
        exact List.mem_map.mpr ⟨(k, v2), ht2, rfl⟩
    · rcases List.mem_cons.mp h2 with he2 | ht2
      · injection he2 with hc hd
        exfalso
        apply hnd.1
        show k0 ∈ List.map (fun p => p.1) rest
        rw [← hc]
        exact List.mem_map.mpr ⟨(k, v1), ht1, rfl⟩
      · exact ih k v1 v2 hnd.2 ht1 ht2

theorem groupsAddNum_nodup (groups : List (String × GAcc)) (k : String) (j : Nat)
    (x : Frac) (hnd : (groups.map (fun p => p.1)).Nodup) :
    ((groupsAddNum groups k j x).map (fun p => p.1)).Nodup := by
  unfold groupsAddNum
  cases alookup groups k with
  | none => exact alistSet_nodup groups k _ hnd
  | some ga => exact alistSet_nodup groups k _ hnd

theorem groupsBumpSize_nodup (groups : List (String × GAcc)) (k : String)
    (hnd : (groups.map (fun p => p.1)).Nodup) :
    ((groupsBumpSize groups k).map (fun p => p.1)).Nodup := by
  unfold groupsBumpSize
  cases alookup groups k with
  | none => exact alistSet_nodup groups k _ hnd
  | some ga => exact alistSet_nodup groups k _ hnd

theorem catsStep_nodup (cats : List (String × Nat)) (v : String)
    (hnd : (cats.map (fun p => p.1)).Nodup) :
    ((catsStep cats v).map (fun p => p.1)).Nodup := by
  unfold catsStep
  by_cases h1 : cats.length ≤ 10000
  · rw [if_pos h1]
    by_cases h2 : byteLen v ≤ 64
    · rw [if_pos h2]
      exact alistBump_nodup cats v hnd
    · rw [if_neg h2]
      exact hnd
  · rw [if_neg h1]
    exact hnd

theorem cellStep_cats_nodup (opt : Options) (gkey : String) (j : Nat) (ca : ColAcc)
    (nv : List Frac) (cell : String) (ctx : RowCtx)
    (h : (ca.cats.map (fun p => p.1)).Nodup) :
    (((cellStep opt gkey j ca nv cell ctx).1).cats.map (fun p => p.1)).Nodup := by
  unfold cellStep
  by_cases hv : goTrim cell = ""
  · rw [if_pos hv]
    exact h
  · rw [if_neg hv]
    dsimp only
    split
    · split_ifs <;> exact h
    · split_ifs <;> first | exact h | exact catsStep_nodup _ _ h

theorem cellStep_groups_nodup (opt : Options) (gkey : String) (j : Nat) (ca : ColAcc)
    (nv : List Frac) (cell : String) (ctx : RowCtx)
    (h : (ctx.groups.map (fun p => p.1)).Nodup) :
    ((cellStep opt gkey j ca nv cell ctx).2.2.groups.map (fun p => p.1)).Nodup := by
  unfold cellStep
  by_cases hv : goTrim cell = ""
  · rw [if_pos hv]
    exact h
  · rw [if_neg hv]
    dsimp only
    split
    · split_ifs <;> first | exact h | exact groupsAddNum_nodup ctx.groups gkey j _ h
    · split_ifs <;> exact h

theorem colsLoop_cats_nodup (opt : Options) (gkey : String) :
    ∀ (cas : List ColAcc) (j : Nat) (nvs : List (List Frac)) (cells : List String)
      (ctx : RowCtx),
    (∀ ca ∈ cas, (ca.cats.map (fun p => p.1)).Nodup) →
    ∀ ca2 ∈ (colsLoop opt gkey j cas nvs cells ctx).1,
      (ca2.cats.map (fun p => p.1)).Nodup := by
  intro cas
  induction cas with
  | nil =>
    intro j nvs cells ctx _ ca2 hmem
    simp only [colsLoop] at hmem
    exact absurd hmem (List.not_mem_nil ca2)
  | cons ca rest ih =>
    intro j nvs cells ctx h ca2 hmem
    simp only [colsLoop] at hmem
    rcases List.mem_cons.mp hmem with heq | hmem2
    · rw [heq]
      exact cellStep_cats_nodup opt gkey j ca _ _ ctx (h ca (List.mem_cons_self ca rest))
    · exact ih (j + 1) nvs.tail cells.tail _
        (fun c hc => h c (List.mem_cons_of_mem ca hc)) ca2 hmem2

theorem colsLoop_groups_nodup (opt : Options) (gkey : String) :
    ∀ (cas : List ColAcc) (j : Nat) (nvs : List (List Frac)) (cells : List String)
      (ctx : RowCtx),
    (ctx.groups.map (fun p => p.1)).Nodup →
    ((colsLoop opt gkey j cas nvs cells ctx).2.2.groups.map (fun p => p.1)).Nodup := by
  intro cas
  induction cas with
  | nil =>
    intro j nvs cells ctx h
    exact h
  | cons ca rest ih =>
    intro j nvs cells ctx h
    simp only [colsLoop]
    exact ih (j + 1) nvs.tail cells.tail _ (cellStep_groups_nodup opt gkey j ca _ _ ctx h)

theorem procRow_nodup (opt : Options) (ncol : Nat) (gb : List (String × Nat))
    (cn : List String) (sr : Int) (st : AccState) (rec : List String)
    (h1 : ∀ ca ∈ st.cols, (ca.cats.map (fun p => p.1)).Nodup)
    (h2 : (st.groups.map (fun p => p.1)).Nodup) :
    (∀ ca ∈ (procRow opt ncol gb cn sr st rec).cols,
       (ca.cats.map (fun p => p.1)).Nodup) ∧
    ((procRow opt ncol gb cn sr st rec).groups.map (fun p => p.1)).Nodup := by
  unfold procRow
  by_cases hb : resolvedMaxRows opt ≤ (st.processed : Int)
  · rw [if_pos hb]
    exact ⟨h1, h2⟩
  · rw [if_neg hb]
    dsimp only
    constructor
    · intro ca hca
      exact colsLoop_cats_nodup opt _ st.cols 0 st.numericVals _ ⟨[], st.groups⟩ h1 ca hca
    · have hR := colsLoop_groups_nodup opt
        (groupKey opt gb cn (rec ++ List.replicate (ncol - rec.length) ""))
        st.cols 0 st.numericVals (rec ++ List.replicate (ncol - rec.length) "")
        ⟨[], st.groups⟩ h2
      by_cases hk : groupKey opt gb cn (rec ++ List.replicate (ncol - rec.length) "") ≠ ""
      · rw [if_pos hk]
        exact groupsBumpSize_nodup _ _ hR
      · rw [if_neg hk]
        exact hR

theorem foldl_nodup (opt : Options) (ncol : Nat) (gb : List (String × Nat))
    (cn : List String) (sr : Int) :
    ∀ (rows : List (List String)) (st : AccState),
    (∀ ca ∈ st.cols, (ca.cats.map (fun p => p.1)).Nodup) →
    (st.groups.map (fun p => p.1)).Nodup →
    (∀ ca ∈ (rows.foldl (procRow opt ncol gb cn sr) st).cols,
       (ca.cats.map (fun p => p.1)).Nodup) ∧
    ((rows.foldl (procRow opt ncol gb cn sr) st).groups.map (fun p => p.1)).Nodup := by
  intro rows
  induction rows with
  | nil => intro st h1 h2; exact ⟨h1, h2⟩
  | cons r rest ih =>
    intro st h1 h2
    simp only [List.foldl_cons]
    have hp := procRow_nodup opt ncol gb cn sr st r h1 h2
    exact ih _ hp.1 hp.2

/-- The accumulated state of the analysis loop (deterministic: no map
iteration happens before finalization). -/
def coreState (header : List String) (rows : List (List String)) (opt : Options)
    (sr : Int) : AccState :=
  rows.foldl (procRow opt header.length (initGbIndex (initCols header))
    ((initCols header).map (fun c => c.name)) sr) (initState header)

theorem analyzeCore_coreState (name : String) (header : List String)
    (rows : List (List String)) (opt : Options) (sr : Int) (ord : MapOrder) :
    analyzeCore name header rows opt sr ord
      = finalizeReport name opt ord header.length (coreState header rows opt sr) := rfl

theorem coreState_cats_nodup (header : List String) (rows : List (List String))
    (opt : Options) (sr : Int) :
    ∀ ca ∈ (coreState header rows opt sr).cols, (ca.cats.map (fun p => p.1)).Nodup := by
  have h := foldl_nodup opt header.length (initGbIndex (initCols header))
    ((initCols header).map (fun c => c.name)) sr rows (initState header)
    (by
      intro ca hca
      rcases List.mem_map.mp hca with ⟨s, _, rfl⟩
      exact List.nodup_nil)
    List.nodup_nil
  exact h.1

theorem coreState_groups_nodup (header : List String) (rows : List (List String))
    (opt : Options) (sr : Int) :
    ((coreState header rows opt sr).groups.map (fun p => p.1)).Nodup := by
  have h := foldl_nodup opt header.length (initGbIndex (initCols header))
    ((initCols header).map (fun c => c.name)) sr rows (initState header)
    (by
      intro ca hca
      rcases List.mem_map.mp hca with ⟨s, _, rfl⟩
      exact List.nodup_nil)
    List.nodup_nil
  exact h.2

/-! ### Determinism of the oracle-dependent finalization pieces -/

theorem topValues_det (ord1 ord2 : MapOrder) (cats : List (String × Nat))
    (hL1 : ord1.Lawful) (hL2 : ord2.Lawful) (hnd : (cats.map (fun p => p.1)).Nodup) :
    goSortSlice lessCat ((ord1.onCats cats).map (fun p => CategoryCount.mk p.1 p.2))
      = goSortSlice lessCat ((ord2.onCats cats).map (fun p => CategoryCount.mk p.1 p.2)) := by
  apply sortSlice_unique lessCat lessCat_asymm (fun _ => True)
    (fun x y z _ _ _ hxy hyz => lessCat_neg_trans x y z hxy hyz)
  · exact ((hL1.1 cats).map _).trans ((hL2.1 cats).map _).symm
  · intro x _
    trivial
  · intro a b ha hb hab hba
    obtain ⟨hceq, hveq⟩ := lessCat_conn a b hab hba
    rcases List.mem_map.mp ha with ⟨p, hp, rfl⟩
    rcases List.mem_map.mp hb with ⟨q, hq, rfl⟩
    have hp2 : p ∈ cats := (hL1.1 cats).mem_iff.mp hp
    have hq2 : q ∈ cats := (hL1.1 cats).mem_iff.mp hq
    have hk : p.1 = q.1 := hveq
    have hv : p.2 = q.2 := by
      apply nodup_keys_val cats p.1 p.2 q.2 hnd
      · exact hp2
      · rw [hk]
        exact hq2
    rw [show p = q from Prod.ext hk hv]

theorem summarizeColumn_det (opt : Options) (ord1 ord2 : MapOrder) (c : ColAcc)
    (vals : List Frac) (hL1 : ord1.Lawful) (hL2 : ord2.Lawful)
    (hnd : (c.cats.map (fun p => p.1)).Nodup) :
    summarizeColumn opt ord1 c vals = summarizeColumn opt ord2 c vals := by
  unfold summarizeColumn
  split_ifs <;> try rfl
  rw [topValues_det ord1 ord2 c.cats hL1 hL2 hnd]

theorem groupResult_ext (a b : GroupResult) (h1 : a.Key = b.Key) (h2 : a.Size = b.Size)
    (h3 : a.Metrics = b.Metrics) (h4 : a.CorrPairs = b.CorrPairs) : a = b := by
  cases a
  cases b
  dsimp only at h1 h2 h3 h4
  rw [h1, h2, h3, h4]

theorem buildGR_det (opt : Options) (ord1 ord2 : MapOrder) (ncol : Nat)
    (cols : List ColAcc) (numCols : List Nat)
    (gPairs : List (String × List (Nat × PairAcc))) (k : String) (ga : GAcc)
    (hL1 : ord1.Lawful) (hL2 : ord2.Lawful)
    (Hk : ∀ gp, alookup gPairs k = some gp →
      ∀ p q, p ∈ gp.filterMap (pairFromKey cols ncol) →
        q ∈ gp.filterMap (pairFromKey cols ncol) →
        lessPair p q = false → lessPair q p = false → p = q) :
    buildGR opt ord1 ncol cols numCols gPairs k ga
      = buildGR opt ord2 ncol cols numCols gPairs k ga := by
  apply groupResult_ext
  · rfl
  · rfl
  · rfl
  · rw [buildGR_corrPairs, buildGR_corrPairs]
    by_cases hcp : opt.CorrPerGroup = true
    · rw [if_pos hcp, if_pos hcp]
      cases hl : alookup gPairs k with
      | none => rfl
      | some gp =>
        dsimp only
        have hsort : goSortSlice lessPair
            ((ord1.onPairs gp).filterMap (pairFromKey cols ncol))
            = goSortSlice lessPair ((ord2.onPairs gp).filterMap (pairFromKey cols ncol)) := by
          apply sortSlice_unique lessPair lessPair_asymm (fun p => 0 < p.R.den)
            (fun x y z hx hy hz hxy hyz => lessPair_trans_neg x y z hx hy hz hxy hyz)
          · exact ((hL1.2.2.1 gp).filterMap _).trans ((hL2.2.2.1 gp).filterMap _).symm
          · exact filterMap_pairs_den cols ncol _
          · intro a b ha hb hab hba
            have ha2 := ((hL1.2.2.1 gp).filterMap (pairFromKey cols ncol)).mem_iff.mp ha
            have hb2 := ((hL1.2.2.1 gp).filterMap (pairFromKey cols ncol)).mem_iff.mp hb
            exact Hk gp hl a b ha2 hb2 hab hba
        rw [hsort]
    · rw [if_neg hcp, if_neg hcp]

theorem groupsOut_det (opt : Options) (ord1 ord2 : MapOrder) (ncol : Nat)
    (cols : List ColAcc) (numCols : List Nat)
    (gPairs : List (String × List (Nat × PairAcc))) (G : List (String × GAcc))
    (hL1 : ord1.Lawful) (hL2 : ord2.Lawful) (hgk : (G.map (fun p => p.1)).Nodup)
    (H : ∀ k gp, alookup gPairs k = some gp →
      ∀ p q, p ∈ gp.filterMap (pairFromKey cols ncol) →
        q ∈ gp.filterMap (pairFromKey cols ncol) →
        lessPair p q = false → lessPair q p = false → p = q) :
    goSortSlice lessGroup ((ord1.onGroups G).map
        (fun p => buildGR opt ord1 ncol cols numCols gPairs p.1 p.2))
      = goSortSlice lessGroup ((ord2.onGroups G).map
        (fun p => buildGR opt ord2 ncol cols numCols gPairs p.1 p.2)) := by
  have hmapeq : (ord2.onGroups G).map
      (fun p => buildGR opt ord2 ncol cols numCols gPairs p.1 p.2)
      = (ord2.onGroups G).map
        (fun p => buildGR opt ord1 ncol cols numCols gPairs p.1 p.2) := by
    apply List.map_congr_left
    intro p _
    exact (buildGR_det opt ord1 ord2 ncol cols numCols gPairs p.1 p.2 hL1 hL2
      (fun gp hl => H p.1 gp hl)).symm
  rw [hmapeq]
  apply sortSlice_unique lessGroup lessGroup_asymm (fun _ => True)
    (fun x y z _ _ _ hxy hyz => lessGroup_neg_trans x y z hxy hyz)
  · exact ((hL1.2.1 G).map _).trans ((hL2.2.1 G).map _).symm
  · intro x _
    trivial
  · intro a b ha hb hab hba
    obtain ⟨hsize, hkey⟩ := lessGroup_conn a b hab hba
    rcases List.mem_map.mp ha with ⟨p, hp, rfl⟩
    rcases List.mem_map.mp hb with ⟨q, hq, rfl⟩
    have hp2 : p ∈ G := (hL1.2.1 G).mem_iff.mp hp
    have hq2 : q ∈ G := (hL1.2.1 G).mem_iff.mp hq
    have hk : p.1 = q.1 := hkey
    have hv : p.2 = q.2 := by
      apply nodup_keys_val G p.1 p.2 q.2 hgk
      · exact hp2
      · rw [hk]
        exact hq2
    rw [show p = q from Prod.ext hk hv]

theorem finalizeReport_det (name : String) (opt : Options) (ord1 ord2 : MapOrder)
    (ncol : Nat) (st : AccState) (hL1 : ord1.Lawful) (hL2 : ord2.Lawful)
    (hcats : ∀ c ∈ st.cols, ((c.cats.map (fun p => p.1)).Nodup))
    (hgk : (st.groups.map (fun p => p.1)).Nodup)
    (H : ∀ k gp, alookup st.gPairs k = some gp →
      ∀ p q, p ∈ gp.filterMap (pairFromKey st.cols ncol) →
        q ∈ gp.filterMap (pairFromKey st.cols ncol) →
        lessPair p q = false → lessPair q p = false → p = q) :
    finalizeReport name opt ord1 ncol st = finalizeReport name opt ord2 ncol st := by
  have hcolRes : (st.cols.zip st.numericVals).map
      (fun p => summarizeColumn opt ord1 p.1 p.2)
      = (st.cols.zip st.numericVals).map (fun p => summarizeColumn opt ord2 p.1 p.2) := by
    apply List.map_congr_left
    intro p hp
    obtain ⟨c, vals⟩ := p
    exact summarizeColumn_det opt ord1 ord2 c vals hL1 hL2
      (hcats c (List.of_mem_zip hp).1)
  unfold finalizeReport
  dsimp only
  rw [hcolRes]
  rw [groupsOut_det opt ord1 ord2 ncol st.cols _ st.gPairs st.groups hL1 hL2 hgk H]

theorem markdown_det (ord1 ord2 : MapOrder) (r : Report)
    (hL1 : ord1.Lawful) (hL2 : ord2.Lawful) :
    Report.Markdown ord1 r = Report.Markdown ord2 r := by
  unfold Report.Markdown
  have h : secGroups ord1 r = secGroups ord2 r := by
    unfold secGroups
    by_cases hg : r.Groups ≠ []
    · rw [if_pos hg, if_pos hg]
      have hmap : r.Groups.map (groupBlock ord1) = r.Groups.map (groupBlock ord2) := by
        apply List.map_congr_left
        intro g _
        unfold groupBlock sortStrings
        rw [sortSlice_unique (fun a b => strLt a b) strLt_asymm (fun _ => True)
          (fun x y z _ _ _ hxy hyz => strLt_neg_trans x y z hxy hyz) _ _
          ((hL1.2.2.2 _).trans (hL2.2.2.2 _).symm) (fun x _ => trivial)
          (fun a b _ _ hab hba => strLt_conn a b hab hba)]
      rw [hmap]
    · rw [if_neg hg, if_neg hg]
  rw [h]

/-- A lawful oracle that reverses every map iteration, standing for a
second run with a different (still permutation-only) iteration order. -/
def revOrder : MapOrder := ⟨List.reverse, List.reverse, List.reverse, List.reverse⟩

theorem revOrder_lawful : revOrder.Lawful :=
  ⟨fun l => List.reverse_perm l, fun l => List.reverse_perm l,
   fun l => List.reverse_perm l, fun l => List.reverse_perm l⟩

def c8opt : Options := { GroupBy := ["g"], Correlations := true, CorrPerGroup := true }

def c8recs : List (List String) :=
  [["g", "a", "bc", "ab", "c"], ["x", "1", "1", "1", "1"], ["x", "2", "2", "2", "2"]]

def c8md (ord : MapOrder) : String :=
  Report.Markdown ord ((AnalyzeCSV "t" c8recs c8opt ord).toOption.getD (emptyReport "t"))

/-- Counterexample for claim C8 as stated: a fixed file and Options with
two per-group pairs tied on (|r|, name concatenation): columns a, bc and
ab, c give concatenations abc and abc with r = 1 for both, so two runs
whose map iterations visit the pair map in different (lawful) orders
render byte-different reports. -/
theorem C8_counterexample : ¬ (c8md idOrder = c8md revOrder) := by decide

/-- Claim C8, amended: rendering is deterministic provided no group has
two distinct correlation pairs tied on both |r| and the concatenation of
the two column names; the rest of the pipeline (sorted groups, sorted
global pairs, sorted category tops, sorted metric keys, stable column
order) never depends on the map iteration order. -/
theorem C8_corrected_theorem (name : String) (header : List String)
    (rows : List (List String)) (opt : Options) (ord1 ord2 : MapOrder)
    (rep1 rep2 : Report) (hL1 : ord1.Lawful) (hL2 : ord2.Lawful)
    (H : ∀ k gp, alookup (coreState header rows opt
          (if opt.SampleRows ≤ 0 then 5 else opt.SampleRows)).gPairs k = some gp →
      ∀ p q, p ∈ gp.filterMap (pairFromKey (coreState header rows opt
          (if opt.SampleRows ≤ 0 then 5 else opt.SampleRows)).cols header.length) →
        q ∈ gp.filterMap (pairFromKey (coreState header rows opt
          (if opt.SampleRows ≤ 0 then 5 else opt.SampleRows)).cols header.length) →
        lessPair p q = false → lessPair q p = false → p = q)
    (h1 : AnalyzeCSV name (header :: rows) opt ord1 = .ok rep1)
    (h2 : AnalyzeCSV name (header :: rows) opt ord2 = .ok rep2) :
    Report.Markdown ord1 rep1 = Report.Markdown ord2 rep2 := by
  rw [show AnalyzeCSV name (header :: rows) opt ord1
      = (if header.length = 0 then Except.ok (emptyReport name)
         else Except.ok (analyzeCore name header rows opt
           (if opt.SampleRows ≤ 0 then 5 else opt.SampleRows) ord1)) from rfl] at h1
  rw [show AnalyzeCSV name (header :: rows) opt ord2
      = (if header.length = 0 then Except.ok (emptyReport name)
         else Except.ok (analyzeCore name header rows opt
           (if opt.SampleRows ≤ 0 then 5 else opt.SampleRows) ord2)) from rfl] at h2
  by_cases hh : header.length = 0
  · rw [if_pos hh] at h1 h2
    injection h1 with he1
    injection h2 with he2
    rw [← he1, ← he2]
    exact markdown_det ord1 ord2 (emptyReport name) hL1 hL2
  · rw [if_neg hh] at h1 h2
    injection h1 with he1
    injection h2 with he2
    rw [← he1, ← he2, analyzeCore_coreState, analyzeCore_coreState]
    rw [finalizeReport_det name opt ord1 ord2 header.length _ hL1 hL2
      (coreState_cats_nodup header rows opt _) (coreState_groups_nodup header rows opt _) H]
    exact markdown_det ord1 ord2 _ hL1 hL2

def c8wrep (ord : MapOrder) : Report :=
  (AnalyzeCSV "w" [["a"], ["1"]] {} ord).toOption.getD (emptyReport "w")

theorem C8_witness :
    Report.Markdown idOrder (c8wrep idOrder) = Report.Markdown revOrder (c8wrep revOrder) := by
  apply C8_corrected_theorem "w" ["a"] [["1"]] {} idOrder revOrder (c8wrep idOrder)
    (c8wrep revOrder) idOrder_lawful revOrder_lawful
  · intro k gp hk
    rw [show (coreState ["a"] [["1"]] ({} : Options)
        (if ({} : Options).SampleRows ≤ 0 then 5 else ({} : Options).SampleRows)).gPairs
      = ([] : List (String × List (Nat × PairAcc))) from rfl] at hk
    simp [alookup] at hk
  · rfl
  · rfl

end Docloom
